import Mathlib

/-!
Verification model of `nand_ring.c` (circular append-only log over raw NAND).

The NAND driver, the CRC-32 routine and the boot clock are external
collaborators of the repository (spec section 6); they are modelled
abstractly here.  A page's observable condition is captured by `PageState`:
a page is CRC-valid exactly when it is `sealed` (carrying the 64-bit header
id, the only header field any algorithm of `nand_ring.c` inspects); erased
pages, pages whose spare area was zero-stamped by session closure, pages
holding data without a sealed spare, and partially-programmed pages all fail
the header CRC and read as `PAGE_ID_WASTED`, exactly as the source comments
and the spec state.  Program/erase failures of the driver are injected
through an explicit oracle (`List Bool`): each fallible driver call consumes
one entry (`true` = the driver reports failure); an exhausted oracle means
no further injected failures.  All recursion is structural or runs on a fuel
bounded by the oracle length, mirroring the fact that every retry loop of
the C code consumes at least one driver failure per iteration.
-/

/-- Abstract observable state of one NAND page.  `sealed id` is the only
CRC-valid state; every other constructor reads back as `PAGE_ID_WASTED`. -/
inductive PageState : Type
  | erased
  | dataWritten
  | zeroed
  | garbage
  | sealed (id : Nat)
deriving DecidableEq, Repr

/-- Abnormal termination of an engine operation: `assert` models a failed
`osalDbgCheck`/`osalDbgAssert`, `halt` models `osalSysHalt`, and `hang`
models the unbounded retry loop running out of good blocks (the known
limitation of spec section 9, an out-of-range driver access in the C). -/
inductive Fault : Type
  | assert
  | halt
  | hang
deriving DecidableEq, Repr

/-- Ring lifecycle state (`nand_ring_state_t`). -/
inductive RingSt : Type
  | UNINIT
  | IDLE
  | MOUNTED
  | STOP
deriving DecidableEq, Repr

/-- Ring configuration (`NandRingConfig`): start block, length in blocks and
the NAND geometry the algorithms read (`pages_per_block`).  The byte sizes
`page_data_size`/`page_spare_size` only shape driver buffers and are
abstracted away with the driver. -/
structure NandRingConfig : Type where
  start_blk : Nat
  len : Nat
  ppb : Nat
deriving DecidableEq, Repr

/-- State of the NAND array as the engine can observe it: the bad-block
marks and the per-page condition. -/
structure NandState : Type where
  bad : Nat → Bool
  pg : Nat → Nat → PageState

/-- Mutable fields of `NandRing`.  `utc_correction` is carried verbatim into
headers by the C code and never read back by any algorithm modelled here. -/
structure NandRing : Type where
  state : RingSt
  cur_blk : Nat
  cur_page : Nat
  cur_id : Nat
  utc_correction : Nat
deriving DecidableEq, Repr

def PAGE_ID_WASTED : Nat := 0

def PAGE_ID_FIRST : Nat := 1

def MIN_RING_SIZE : Nat := 64

/-- Write one page cell of the page map. -/
def setPg (s : NandState) (b p : Nat) (st : PageState) : NandState :=
  { s with pg := fun x q => if x = b ∧ q = p then st else s.pg x q }

/-- `nandIsBad`. -/
def nandIsBad (s : NandState) (b : Nat) : Bool := s.bad b

/-- `nandMarkBad`. -/
def nandMarkBad (s : NandState) (b : Nat) : NandState :=
  { s with bad := fun x => if x = b then true else s.bad x }

/-- Successful `nandErase`: every page of the block reads back erased. -/
def eraseBlockOk (s : NandState) (b : Nat) : NandState :=
  { s with pg := fun x q => if x = b then PageState.erased else s.pg x q }

/-- Successful `nandWritePageData`: NAND programming only clears bits, so on
an erased page the data lands intact (spare still erased, CRC invalid); on
any other page the result is corrupt. -/
def writeDataOk (s : NandState) (b p : Nat) : NandState :=
  match s.pg b p with
  | PageState.erased => setPg s b p PageState.dataWritten
  | _ => setPg s b p PageState.garbage

/-- Failed `nandWritePageData`: the page is partially programmed. -/
def writeDataFail (s : NandState) (b p : Nat) : NandState :=
  setPg s b p PageState.garbage

/-- Successful `nandWritePageSpare` of a freshly sealed header: on a page
whose data was just programmed the page becomes CRC-valid with the header's
id; over any other content the AND-programming corrupts the header. -/
def writeSpareOk (s : NandState) (b p : Nat) (id : Nat) : NandState :=
  match s.pg b p with
  | PageState.dataWritten => setPg s b p (PageState.sealed id)
  | _ => setPg s b p PageState.garbage

/-- Failed `nandWritePageSpare`. -/
def writeSpareFail (s : NandState) (b p : Nat) : NandState :=
  setPg s b p PageState.garbage

/-- Successful `nandWritePageWhole` of the session-closure scratchpad
pattern (data zeroed, two `0xFF` bytes, rest zero): whatever the page held,
the spare bytes are forced low and the header CRC can no longer validate. -/
def writeWholeZeroOk (s : NandState) (b p : Nat) : NandState :=
  setPg s b p PageState.zeroed

/-- Failed `nandWritePageWhole` of the closure pattern. -/
def writeWholeZeroFail (s : NandState) (b p : Nat) : NandState :=
  setPg s b p PageState.garbage

/-- Successful `nandDataMove`: pages `[0, n)` of `src` are copied (data and
spare, hence page condition) into `dst`. -/
def dataMoveOk (s : NandState) (src dst n : Nat) : NandState :=
  { s with pg := fun x q => if x = dst ∧ q < n then s.pg src q else s.pg x q }

/-- Failed `nandDataMove`: the target pages touched by the move are left
partially programmed. -/
def dataMoveFail (s : NandState) (src dst n : Nat) : NandState :=
  { s with pg := fun x q => if x = dst ∧ q < n then PageState.garbage else s.pg x q }

/-- `read_page_id`: the header id when the spare CRC validates, otherwise
`PAGE_ID_WASTED`. -/
def read_page_id (s : NandState) (blk page : Nat) : Nat :=
  match s.pg blk page with
  | PageState.sealed id => id
  | _ => PAGE_ID_WASTED

/-- Membership of a physical block in the configured ring span. -/
def inRing (cfg : NandRingConfig) (b : Nat) : Prop :=
  cfg.start_blk ≤ b ∧ b < cfg.start_blk + cfg.len

instance (cfg : NandRingConfig) (b : Nat) : Decidable (inRing cfg b) := by
  unfold inRing; infer_instance

/-- The successor step of `next_good`'s walk: `b++` with wrap at
`start_blk + len` back to `start_blk`. -/
def ringNext (cfg : NandRingConfig) (b : Nat) : Nat :=
  if b + 1 = cfg.start_blk + cfg.len then cfg.start_blk else b + 1

/-- The walk of `next_good`: up to `fuel` successor steps, returning the
first block not marked bad.  For a current block inside the ring the C
do-while visits exactly `len` candidates (ending back at `current`), which
is the fuel the wrapper supplies. -/
def next_good_go (cfg : NandRingConfig) (s : NandState) : Nat → Nat → Option Nat
  | _b, 0 => none
  | b, fuel + 1 =>
    let b1 := ringNext cfg b
    if s.bad b1 then next_good_go cfg s b1 fuel else some b1

/-- `next_good`: first good block strictly after `current` in ring order;
`none` models `BLOCK_NOT_FOUND` (search wrapped without success). -/
def next_good (cfg : NandRingConfig) (s : NandState) (current : Nat) : Option Nat :=
  next_good_go cfg s current cfg.len

/-- `first_good`: `next_good` from the last block of the span. -/
def first_good (cfg : NandRingConfig) (s : NandState) : Option Nat :=
  next_good cfg s (cfg.start_blk + cfg.len - 1)

/-- `get_total_good`: count of non-bad blocks in the span. -/
def get_total_good (cfg : NandRingConfig) (s : NandState) : Nat :=
  ((List.range cfg.len).filter (fun i => ! s.bad (cfg.start_blk + i))).length

/-- `erase_next`: repeatedly pick the next good block and erase it; a failed
erase marks that block bad and retries.  Each erase attempt consumes one
oracle entry; with the oracle exhausted the erase succeeds.  `none` from
`next_good` is the good-block-exhaustion hang (spec section 9). -/
def erase_next (cfg : NandRingConfig) (cur : Nat) :
    NandState → List Bool → Except Fault (Nat × NandState × List Bool)
  | s, o =>
    match next_good cfg s cur with
    | none => Except.error Fault.hang
    | some blk =>
      match o with
      | [] => Except.ok (blk, eraseBlockOk s blk, [])
      | f :: rest =>
        if f then erase_next cfg cur (nandMarkBad s blk) rest
        else Except.ok (blk, eraseBlockOk s blk, rest)

/-- Accumulator step shared by both recovery scans: keep `(position, id)`
when the newly read id is `≥` the best one so far (ties prefer the later
visit), exactly the `if (id >= last_id)` of the C. -/
def scanStep (g : Nat → Nat) (acc : Option Nat × Nat) (x : Nat) : Option Nat × Nat :=
  if acc.2 ≤ g x then (some x, g x) else acc

/-- The block scan of `last_written_block`: visit the current block, then
step to `next_good` and continue while it is still `> first`.  The fuel is
`len`, an upper bound on the number of good blocks visited. -/
def last_written_block_go (cfg : NandRingConfig) (s : NandState) (first : Nat) :
    Nat → Nat → Option Nat × Nat → Option Nat
  | 0, _b, acc => acc.1
  | fuel + 1, b, acc =>
    let acc1 := scanStep (fun x => read_page_id s x 0) acc b
    match next_good cfg s b with
    | none => acc1.1
    | some b1 =>
      if first < b1 then last_written_block_go cfg s first fuel b1 acc1 else acc1.1

/-- `last_written_block`: brute-force scan of page 0 of every good block
starting from `first_good`; `none` models `BLOCK_NOT_FOUND`.  (When the ring
holds no good block at all the C walks out of the span; `nandRingMount`'s
good-block guard keeps that unreachable, and it is modelled as not found.) -/
def last_written_block (cfg : NandRingConfig) (s : NandState) : Option Nat :=
  match first_good cfg s with
  | none => none
  | some first =>
    last_written_block_go cfg s first cfg.len first (none, PAGE_ID_FIRST)

/-- `last_written_page`: scan all pages of the chosen block for the largest
valid id; finding none is the `osalDbgCheck(LAST_PAGE_NOT_FOUND != last_page)`
fatal assertion. -/
def last_written_page (cfg : NandRingConfig) (s : NandState) (blk : Nat) :
    Except Fault Nat :=
  let acc := (List.range cfg.ppb).foldl
    (scanStep (fun p => read_page_id s blk p)) (none, PAGE_ID_FIRST)
  match acc.1 with
  | none => Except.error Fault.assert
  | some p => Except.ok p

/-- The overwrite loop of `close_prev_session`: stamp the closure pattern on
`count` pages starting at `page`; a failed program marks the block bad and
the loop simply continues with the next page. -/
def close_fill (blk : Nat) :
    NandState → List Bool → Nat → Nat → NandState × List Bool
  | s, o, _page, 0 => (s, o)
  | s, o, page, count + 1 =>
    match o with
    | [] => close_fill blk (writeWholeZeroOk s blk page) [] (page + 1) count
    | f :: rest =>
      if f then
        close_fill blk (nandMarkBad (writeWholeZeroFail s blk page) blk) rest
          (page + 1) count
      else close_fill blk (writeWholeZeroOk s blk page) rest (page + 1) count

/-- `close_prev_session`: unless the last written page is the final page of
the block, overwrite every page from `last_page` (inclusive) to the end of
the block with the closure pattern; then erase the next good block and
return it. -/
def close_prev_session (cfg : NandRingConfig) (s : NandState)
    (last_blk last_page : Nat) (o : List Bool) :
    Except Fault (Nat × NandState × List Bool) :=
  if last_page = cfg.ppb - 1 then erase_next cfg last_blk s o
  else
    let so := close_fill last_blk s o last_page (cfg.ppb - last_page)
    erase_next cfg last_blk so.1 so.2

/-- `mkfs`: take the first good block and `erase_next` from it (note: the
value returned, and installed as `cur_blk`, is therefore the good block
*after* `first_good`). -/
def mkfs (cfg : NandRingConfig) (s : NandState) (o : List Bool) :
    Except Fault (Nat × NandState × List Bool) :=
  match first_good cfg s with
  | none => Except.error Fault.hang
  | some cur => erase_next cfg cur s o

/-- `nandRingMount`.  Returns the C `bool` result alongside the updated ring
and NAND; `OSAL_FAILED` is `false`. -/
def nandRingMount (cfg : NandRingConfig) (r : NandRing) (s : NandState)
    (o : List Bool) : Except Fault (Bool × NandRing × NandState × List Bool) :=
  if r.state ≠ RingSt.IDLE then Except.error Fault.assert
  else if get_total_good cfg s < MIN_RING_SIZE / 2 then Except.ok (false, r, s, o)
  else
    match last_written_block cfg s with
    | none =>
      match mkfs cfg s o with
      | Except.error e => Except.error e
      | Except.ok (blk, s1, o1) =>
        Except.ok (true,
          { r with state := RingSt.MOUNTED, cur_blk := blk, cur_page := 0,
                   cur_id := PAGE_ID_FIRST }, s1, o1)
    | some last_blk =>
      match last_written_page cfg s last_blk with
      | Except.error e => Except.error e
      | Except.ok last_page =>
        let last_id := read_page_id s last_blk last_page
        match close_prev_session cfg s last_blk last_page o with
        | Except.error e => Except.error e
        | Except.ok (blk, s1, o1) =>
          Except.ok (true,
            { r with state := RingSt.MOUNTED, cur_blk := blk, cur_page := 0,
                     cur_id := last_id + 1 }, s1, o1)

/-- `block_data_rescue`'s retry loop for `failed_page > 0`: obtain a fresh
erased block, ask the driver to move pages `[0, failed_page)` into it; if
the move fails, mark the target bad and retry.  Fuel is bounded by the
oracle (each failed move consumes an entry). -/
def block_data_rescue_go :
    Nat → NandRingConfig → NandState → Nat → Nat → List Bool →
    Except Fault (Nat × NandState × List Bool)
  | 0, _, _, _, _, _ => Except.error Fault.hang
  | fuel + 1, cfg, s, failed_blk, failed_page, o =>
    match erase_next cfg failed_blk s o with
    | Except.error e => Except.error e
    | Except.ok (target, s1, o1) =>
      match o1 with
      | [] => Except.ok (target, dataMoveOk s1 failed_blk target failed_page, [])
      | f :: rest =>
        if f then
          block_data_rescue_go fuel cfg
            (nandMarkBad (dataMoveFail s1 failed_blk target failed_page) target)
            failed_blk failed_page rest
        else Except.ok (target, dataMoveOk s1 failed_blk target failed_page, rest)

/-- `block_data_rescue`: move the data of the failing block to a fresh one
(nothing to move when the failure hit page 0); the caller has already marked
the failing block bad, and `ring->cur_blk` still names it, so the search for
a fresh block starts from `failed_blk`. -/
def block_data_rescue (cfg : NandRingConfig) (s : NandState)
    (failed_blk failed_page : Nat) (o : List Bool) :
    Except Fault (Nat × NandState × List Bool) :=
  if 0 < failed_page then
    block_data_rescue_go (o.length + 1) cfg s failed_blk failed_page o
  else erase_next cfg failed_blk s o

/-- The `RETRY` loop of `nandRingWritePage`: program the data page, then
seal the spare with a header carrying `id`; on either program failure mark
the block bad, rescue, and retry the whole page on the fresh block.  Returns
the block that finally took the page.  Fuel is bounded by the oracle. -/
def write_loop :
    Nat → NandRingConfig → Nat → Nat → Nat → NandState → List Bool →
    Except Fault (Nat × NandState × List Bool)
  | 0, _, _, _, _, _, _ => Except.error Fault.hang
  | fuel + 1, cfg, blk, page, id, s, o =>
    match o with
    | [] => Except.ok (blk, writeSpareOk (writeDataOk s blk page) blk page id, [])
    | f :: rest =>
      if f then
        let s1 := nandMarkBad (writeDataFail s blk page) blk
        match block_data_rescue cfg s1 blk page rest with
        | Except.error e => Except.error e
        | Except.ok (nb, s2, o2) => write_loop fuel cfg nb page id s2 o2
      else
        let s1 := writeDataOk s blk page
        match rest with
        | [] => Except.ok (blk, writeSpareOk s1 blk page id, [])
        | g :: rest2 =>
          if g then
            let s2 := nandMarkBad (writeSpareFail s1 blk page) blk
            match block_data_rescue cfg s2 blk page rest2 with
            | Except.error e => Except.error e
            | Except.ok (nb, s3, o3) => write_loop fuel cfg nb page id s3 o3
          else Except.ok (blk, writeSpareOk s1 blk page id, rest2)

/-- `nandRingWritePage`: assert `MOUNTED`, run the program/seal retry loop
with the current id, then advance `cur_id` and `cur_page`, rolling into a
freshly erased next good block when the block is full. -/
def nandRingWritePage (cfg : NandRingConfig) (r : NandRing) (s : NandState)
    (o : List Bool) : Except Fault (NandRing × NandState × List Bool) :=
  if r.state ≠ RingSt.MOUNTED then Except.error Fault.assert
  else
    match write_loop (o.length + 1) cfg r.cur_blk r.cur_page r.cur_id s o with
    | Except.error e => Except.error e
    | Except.ok (blk, s1, o1) =>
      if r.cur_page + 1 = cfg.ppb then
        match erase_next cfg blk s1 o1 with
        | Except.error e => Except.error e
        | Except.ok (nb, s2, o2) =>
          Except.ok ({ r with cur_blk := nb, cur_page := 0,
                              cur_id := r.cur_id + 1 }, s2, o2)
      else
        Except.ok ({ r with cur_blk := blk, cur_page := r.cur_page + 1,
                            cur_id := r.cur_id + 1 }, s1, o1)

/-- `nandRingObjectInit`: no state precondition; puts the object in
`UNINIT` (the config pointer and debug hook are outside this model). -/
def nandRingObjectInit (r : NandRing) : NandRing :=
  { r with state := RingSt.UNINIT }

/-- `nandRingStart`: validates only the configuration (span inside the
device, `len ≥ MIN_RING_SIZE`; the driver-readiness and spare-size checks
concern the abstracted driver); it performs no check of the ring's own
lifecycle state. -/
def nandRingStart (cfg : NandRingConfig) (nandBlocks : Nat) (r : NandRing) :
    Except Fault NandRing :=
  if cfg.start_blk + cfg.len ≤ nandBlocks ∧ MIN_RING_SIZE ≤ cfg.len then
    Except.ok { r with state := RingSt.IDLE }
  else Except.error Fault.assert

/-- `nandRingUmount`: no state check (only the NULL check); unconditionally
returns the ring to `IDLE`. -/
def nandRingUmount (r : NandRing) : Except Fault NandRing :=
  Except.ok { r with state := RingSt.IDLE }

/-- `nandRingStop`: asserts `IDLE`, then moves to `STOP`. -/
def nandRingStop (r : NandRing) : Except Fault NandRing :=
  if r.state ≠ RingSt.IDLE then Except.error Fault.assert
  else Except.ok { r with state := RingSt.STOP }

/-- `nandRingTotalGood`: asserts `MOUNTED`. -/
def nandRingTotalGood (cfg : NandRingConfig) (r : NandRing) (s : NandState) :
    Except Fault Nat :=
  if r.state ≠ RingSt.MOUNTED then Except.error Fault.assert
  else Except.ok (get_total_good cfg s)

/-- `nandRingSetUtcCorrection`: unconditionally `osalSysHalt("Unrealized yet")`. -/
def nandRingSetUtcCorrection (correction : Nat) : Except Fault Unit :=
  Except.error Fault.halt

/-- `nandRingSearchSessions`: unconditionally `osalSysHalt("Unrealized yet")`;
the result buffer (of any type) is never written and the trailing
`return 0` is unreachable. -/
def nandRingSearchSessions {α : Type} (result : α) (max_sessions : Nat) :
    Except Fault (α × Nat) :=
  Except.error Fault.halt

/-- A fresh NAND: every block good, every page erased. -/
def freshNand : NandState :=
  { bad := fun _ => false, pg := fun _ _ => PageState.erased }

/-- Iterate `nandRingWritePage` with no injected failures. -/
def runWrites (cfg : NandRingConfig) :
    Nat → NandRing → NandState → Except Fault (NandRing × NandState)
  | 0, r, s => Except.ok (r, s)
  | n + 1, r, s =>
    match nandRingWritePage cfg r s [] with
    | Except.error e => Except.error e
    | Except.ok (r1, s1, _) => runWrites cfg n r1 s1

/-- Iterate `nandRingWritePage`, one failure oracle per call. -/
def runWritesOr (cfg : NandRingConfig) :
    List (List Bool) → NandRing → NandState → Except Fault (NandRing × NandState)
  | [], r, s => Except.ok (r, s)
  | o :: os, r, s =>
    match nandRingWritePage cfg r s o with
    | Except.error e => Except.error e
    | Except.ok (r1, s1, _) => runWritesOr cfg os r1 s1

/-- One public lifecycle operation together with its injected-failure oracle. -/
inductive RingOp : Type
  | opStart (nandBlocks : Nat)
  | opMount (o : List Bool)
  | opWrite (o : List Bool)
  | opUmount
  | opStop

/-- Execute one public operation on the (ring, NAND) pair. -/
def runOp (cfg : NandRingConfig) :
    RingOp → NandRing × NandState → Except Fault (NandRing × NandState)
  | RingOp.opStart nb, (r, s) =>
    match nandRingStart cfg nb r with
    | Except.error e => Except.error e
    | Except.ok r1 => Except.ok (r1, s)
  | RingOp.opMount o, (r, s) =>
    match nandRingMount cfg r s o with
    | Except.error e => Except.error e
    | Except.ok (_, r1, s1, _) => Except.ok (r1, s1)
  | RingOp.opWrite o, (r, s) =>
    match nandRingWritePage cfg r s o with
    | Except.error e => Except.error e
    | Except.ok (r1, s1, _) => Except.ok (r1, s1)
  | RingOp.opUmount, (r, s) =>
    match nandRingUmount r with
    | Except.error e => Except.error e
    | Except.ok r1 => Except.ok (r1, s)
  | RingOp.opStop, (r, s) =>
    match nandRingStop r with
    | Except.error e => Except.error e
    | Except.ok r1 => Except.ok (r1, s)

/-- Execute a sequence of public operations. -/
def runOps (cfg : NandRingConfig) :
    List RingOp → NandRing × NandState → Except Fault (NandRing × NandState)
  | [], x => Except.ok x
  | op :: ops, x =>
    match runOp cfg op x with
    | Except.error e => Except.error e
    | Except.ok x1 => runOps cfg ops x1

/-- Largest id readable from any CRC-valid page of the ring span
(`0` when no page validates). -/
def maxDurableId (cfg : NandRingConfig) (s : NandState) : Nat :=
  (List.range cfg.len).foldl
    (fun m i =>
      (List.range cfg.ppb).foldl
        (fun m2 p => max m2 (read_page_id s (cfg.start_blk + i) p)) m)
    0

/-- Every page of the block reads back erased. -/
def blockErased (cfg : NandRingConfig) (s : NandState) (b : Nat) : Prop :=
  ∀ p, p < cfg.ppb → s.pg b p = PageState.erased

instance (cfg : NandRingConfig) (s : NandState) (b : Nat) :
    Decidable (blockErased cfg s b) := by
  unfold blockErased; infer_instance

/-- Every CRC-valid page of the whole NAND carries an id below `bound`. -/
def sealedBelow (s : NandState) (bound : Nat) : Prop :=
  ∀ b p i, s.pg b p = PageState.sealed i → i < bound

/-- Block shape `[0, m)` sealed with consecutive ids from `base`, the rest
of the block erased. -/
def sealedRun (cfg : NandRingConfig) (s : NandState) (b m base : Nat) : Prop :=
  (∀ p, p < m → s.pg b p = PageState.sealed (base + p)) ∧
  (∀ p, m ≤ p → p < cfg.ppb → s.pg b p = PageState.erased)

/-- A page is CRC-valid exactly when it is sealed. -/
def isValid : PageState → Bool
  | PageState.sealed _ => true
  | _ => false

/-- Claim C6's invariant: in every block of the ring (enumerated by offset
from `start_blk`) the CRC-valid pages form a contiguous prefix: a page is
valid only if its predecessor in the block is. -/
def validPagesContiguous (cfg : NandRingConfig) (s : NandState) : Prop :=
  ∀ j, j < cfg.len → ∀ p, p < cfg.ppb - 1 →
    isValid (s.pg (cfg.start_blk + j) (p + 1)) = true →
    isValid (s.pg (cfg.start_blk + j) p) = true

instance (cfg : NandRingConfig) (s : NandState) :
    Decidable (validPagesContiguous cfg s) := by
  unfold validPagesContiguous; infer_instance

/-- Ring-order predecessor of a block of the span. -/
def ringPrev (cfg : NandRingConfig) (c : Nat) : Nat :=
  if c = cfg.start_blk then cfg.start_blk + cfg.len - 1 else c - 1

/-- How many ring steps lie behind `c` back to `b` (both in the span). -/
def ringDist (cfg : NandRingConfig) (c b : Nat) : Nat :=
  if b ≤ c then c - b else c + cfg.len - b

/-- The running-writer invariant tying a mounted ring to its NAND: the
current block holds the `cur_page` freshest ids ending at `cur_id - 1`;
every other block of the span is a sealed run lying entirely below them;
runs are ordered along the ring (more recent blocks are fewer steps behind
`cur_blk`); and when the writer sits at page 0 of a fresh block its
ring-predecessor holds the full block that was just finished. -/
structure WInv (cfg : NandRingConfig) (r : NandRing) (s : NandState) : Prop where
  mounted : r.state = RingSt.MOUNTED
  allGood : ∀ b, s.bad b = false
  inr : inRing cfg r.cur_blk
  plt : r.cur_page < cfg.ppb
  idgt : r.cur_page < r.cur_id
  cur : sealedRun cfg s r.cur_blk r.cur_page (r.cur_id - r.cur_page)
  rest : ∀ b, inRing cfg b → b ≠ r.cur_blk →
    ∃ m base, m ≤ cfg.ppb ∧ sealedRun cfg s b m base ∧
      (0 < m → 0 < base ∧ base + m ≤ r.cur_id - r.cur_page)
  chain : ∀ b1 b2 m1 base1 m2 base2, inRing cfg b1 → inRing cfg b2 →
    b1 ≠ r.cur_blk → b2 ≠ r.cur_blk →
    sealedRun cfg s b1 m1 base1 → m1 ≤ cfg.ppb → 0 < m1 →
    sealedRun cfg s b2 m2 base2 → m2 ≤ cfg.ppb → 0 < m2 →
    ringDist cfg r.cur_blk b1 < ringDist cfg r.cur_blk b2 →
    base2 + m2 ≤ base1
  prev : r.cur_page = 0 → r.cur_id ≠ 1 →
    ringPrev cfg r.cur_blk ≠ r.cur_blk ∧ inRing cfg (ringPrev cfg r.cur_blk) ∧
    0 < r.cur_id - cfg.ppb ∧
    sealedRun cfg s (ringPrev cfg r.cur_blk) cfg.ppb (r.cur_id - cfg.ppb)

/-- (witness instance) a 64-block, 2-pages-per-block ring starting at 0. -/
def cfg0 : NandRingConfig := { start_blk := 0, len := 64, ppb := 2 }

/-- (witness instance) a ring object in `IDLE`. -/
def r0 : NandRing :=
  { state := RingSt.IDLE, cur_blk := 0, cur_page := 0, cur_id := 0,
    utc_correction := 0 }

/-- (witness instance) a ring object in `MOUNTED` at block 1, page 1, id 2
(the state reached from `r0` by mounting a fresh ring and appending once). -/
def rM1 : NandRing :=
  { state := RingSt.MOUNTED, cur_blk := 1, cur_page := 1, cur_id := 2,
    utc_correction := 0 }

/-- (witness instance) a NAND whose every block is bad. -/
def sAllBad : NandState :=
  { bad := fun _ => true, pg := fun _ _ => PageState.erased }

/-- (witness instance) a fresh NAND except that page 0 of block 1 is sealed
with id 1 (the NAND reached from fresh by mounting and appending once). -/
def sOne : NandState :=
  { bad := fun _ => false,
    pg := fun b p =>
      if b = 1 ∧ p = 0 then PageState.sealed 1 else PageState.erased }

/-- Projection of a mount outcome to its caller-visible data: the returned
flag and the installed `(cur_blk, cur_page, cur_id)`. -/
def mountRingView (cfg : NandRingConfig) (r : NandRing) (s : NandState)
    (o : List Bool) : Option (Bool × Nat × Nat × Nat) :=
  match nandRingMount cfg r s o with
  | Except.ok (flag, r1, _, _) => some (flag, r1.cur_blk, r1.cur_page, r1.cur_id)
  | Except.error _ => none

/-- Claim C2's scenario, one recovery: mount a fresh ring, append one page,
lose power (drop to `IDLE`), and run the mount-time recovery once. -/
def c2RecoverOnce : Option (Bool × Nat × Nat × Nat) :=
  match nandRingMount cfg0 r0 freshNand [] with
  | Except.ok (_, r1, s1, _) =>
    match nandRingWritePage cfg0 r1 s1 [] with
    | Except.ok (r2, s2, _) =>
      mountRingView cfg0 { r2 with state := RingSt.IDLE } s2 []
    | Except.error _ => none
  | Except.error _ => none

/-- Claim C2's scenario, recovery twice in succession on the same ring. -/
def c2RecoverTwice : Option (Bool × Nat × Nat × Nat) :=
  match nandRingMount cfg0 r0 freshNand [] with
  | Except.ok (_, r1, s1, _) =>
    match nandRingWritePage cfg0 r1 s1 [] with
    | Except.ok (r2, s2, _) =>
      match nandRingMount cfg0 { r2 with state := RingSt.IDLE } s2 [] with
      | Except.ok (_, r3, s3, _) =>
        mountRingView cfg0 { r3 with state := RingSt.IDLE } s3 []
      | Except.error _ => none
    | Except.error _ => none
  | Except.error _ => none

/-- (witness instance) a 64-block, 4-pages-per-block ring starting at 0. -/
def cfg4 : NandRingConfig := { start_blk := 0, len := 64, ppb := 4 }

/-- The mounted-writer tail invariant used for claim C6: while mounted, the
current block holds CRC-valid pages up to `cur_page` and erased pages from
`cur_page` to the end of the block. -/
def mountedTail (cfg : NandRingConfig) (r : NandRing) (s : NandState) : Prop :=
  r.state = RingSt.MOUNTED →
    r.cur_page < cfg.ppb ∧
    (∀ q, q < r.cur_page → isValid (s.pg r.cur_blk q) = true) ∧
    (∀ q, r.cur_page ≤ q → q < cfg.ppb → s.pg r.cur_blk q = PageState.erased)

/-- (witness instance) the ring object after mounting a fresh 64-block,
2-pages-per-block ring: `MOUNTED` at block 1, page 0, id 1. -/
def c1r1 : NandRing :=
  { state := RingSt.MOUNTED, cur_blk := 1, cur_page := 0, cur_id := 1,
    utc_correction := 0 }

/-- (witness instance) the NAND after that mount: fresh with block 1 erased. -/
def c1s1 : NandState := eraseBlockOk freshNand 1

/-- (witness instance) the ring after three failure-free appends on `c1r1`
(ids 1 and 2 fill block 1, the rollover erases block 2, id 3 lands at its
page 0). -/
def c1r2 : NandRing :=
  { state := RingSt.MOUNTED, cur_blk := 2, cur_page := 1, cur_id := 4,
    utc_correction := 0 }

/-- (witness instance) the NAND after those three appends. -/
def c1s2 : NandState :=
  writeSpareOk
    (writeDataOk
      (eraseBlockOk
        (writeSpareOk
          (writeDataOk
            (writeSpareOk (writeDataOk c1s1 1 0) 1 0 1) 1 1) 1 1 2) 2) 2 0)
    2 0 3

-- ===================== lemmas and claim theorems =====================

set_option maxRecDepth 100000

theorem setPg_bad (s : NandState) (b p : Nat) (st : PageState) :
    (setPg s b p st).bad = s.bad := rfl

theorem setPg_pg (s : NandState) (b p : Nat) (st : PageState) (x q : Nat) :
    (setPg s b p st).pg x q = if x = b ∧ q = p then st else s.pg x q := rfl

theorem markBad_pg (s : NandState) (b : Nat) : (nandMarkBad s b).pg = s.pg := rfl

theorem markBad_bad (s : NandState) (b x : Nat) :
    (nandMarkBad s b).bad x = if x = b then true else s.bad x := rfl

theorem eraseBlockOk_bad (s : NandState) (b : Nat) :
    (eraseBlockOk s b).bad = s.bad := rfl

theorem eraseBlockOk_pg (s : NandState) (b x q : Nat) :
    (eraseBlockOk s b).pg x q = if x = b then PageState.erased else s.pg x q := rfl

theorem dataMoveOk_bad (s : NandState) (src dst n : Nat) :
    (dataMoveOk s src dst n).bad = s.bad := rfl

theorem dataMoveOk_pg (s : NandState) (src dst n x q : Nat) :
    (dataMoveOk s src dst n).pg x q =
      if x = dst ∧ q < n then s.pg src q else s.pg x q := rfl

theorem dataMoveFail_bad (s : NandState) (src dst n : Nat) :
    (dataMoveFail s src dst n).bad = s.bad := rfl

theorem dataMoveFail_pg (s : NandState) (src dst n x q : Nat) :
    (dataMoveFail s src dst n).pg x q =
      if x = dst ∧ q < n then PageState.garbage else s.pg x q := rfl

theorem writeDataOk_bad (s : NandState) (b p : Nat) :
    (writeDataOk s b p).bad = s.bad := by
  unfold writeDataOk; cases s.pg b p <;> rfl

theorem writeDataOk_pg_ne (s : NandState) (b p x q : Nat) (h : ¬(x = b ∧ q = p)) :
    (writeDataOk s b p).pg x q = s.pg x q := by
  unfold writeDataOk; cases s.pg b p <;> simp [setPg_pg, h]

theorem writeDataOk_pg_erased (s : NandState) (b p : Nat)
    (h : s.pg b p = PageState.erased) :
    (writeDataOk s b p).pg b p = PageState.dataWritten := by
  unfold writeDataOk; rw [h]; simp [setPg_pg]

theorem writeSpareOk_bad (s : NandState) (b p id : Nat) :
    (writeSpareOk s b p id).bad = s.bad := by
  unfold writeSpareOk; cases s.pg b p <;> rfl

theorem writeSpareOk_pg_ne (s : NandState) (b p id x q : Nat) (h : ¬(x = b ∧ q = p)) :
    (writeSpareOk s b p id).pg x q = s.pg x q := by
  unfold writeSpareOk; cases s.pg b p <;> simp [setPg_pg, h]

theorem writeSpareOk_pg_dw (s : NandState) (b p id : Nat)
    (h : s.pg b p = PageState.dataWritten) :
    (writeSpareOk s b p id).pg b p = PageState.sealed id := by
  unfold writeSpareOk; rw [h]; simp [setPg_pg]

theorem writeDataFail_bad (s : NandState) (b p : Nat) :
    (writeDataFail s b p).bad = s.bad := rfl

theorem writeDataFail_pg (s : NandState) (b p x q : Nat) :
    (writeDataFail s b p).pg x q =
      if x = b ∧ q = p then PageState.garbage else s.pg x q := rfl

theorem writeSpareFail_bad (s : NandState) (b p : Nat) :
    (writeSpareFail s b p).bad = s.bad := rfl

theorem writeSpareFail_pg (s : NandState) (b p x q : Nat) :
    (writeSpareFail s b p).pg x q =
      if x = b ∧ q = p then PageState.garbage else s.pg x q := rfl

theorem writeWholeZeroOk_bad (s : NandState) (b p : Nat) :
    (writeWholeZeroOk s b p).bad = s.bad := rfl

theorem writeWholeZeroOk_pg (s : NandState) (b p x q : Nat) :
    (writeWholeZeroOk s b p).pg x q =
      if x = b ∧ q = p then PageState.zeroed else s.pg x q := rfl

theorem writeWholeZeroFail_bad (s : NandState) (b p : Nat) :
    (writeWholeZeroFail s b p).bad = s.bad := rfl

theorem writeWholeZeroFail_pg (s : NandState) (b p x q : Nat) :
    (writeWholeZeroFail s b p).pg x q =
      if x = b ∧ q = p then PageState.garbage else s.pg x q := rfl

theorem isValid_sealed (i : Nat) : isValid (PageState.sealed i) = true := rfl

theorem isValid_eq_true_iff (st : PageState) :
    isValid st = true ↔ ∃ i, st = PageState.sealed i := by
  cases st <;> simp [isValid]

/-- Claim C10: for every argument value, `nandRingSetUtcCorrection` and
`nandRingSearchSessions` invoke the host panic (`osalSysHalt`) before doing
anything else: neither operation modifies any state, writes its result
buffer, or returns normally. -/
theorem c10_unimplemented_halt :
    (∀ c : Nat, nandRingSetUtcCorrection c = Except.error Fault.halt) ∧
    (∀ (α : Type) (result : α) (m : Nat),
      nandRingSearchSessions result m = Except.error Fault.halt) :=
  ⟨fun _ => rfl, fun _ _ _ => rfl⟩

/-- Claim C8: on an `IDLE` ring whose span holds fewer than
`MIN_RING_SIZE / 2 = 32` good blocks, `nandRingMount` returns the failure
flag and leaves the ring object (state, `cur_blk`, `cur_page`, `cur_id`)
and the NAND contents completely untouched. -/
theorem c8_mount_failure_atomic (cfg : NandRingConfig) (r : NandRing)
    (s : NandState) (o : List Bool) (hidle : r.state = RingSt.IDLE)
    (hfew : get_total_good cfg s < MIN_RING_SIZE / 2) :
    nandRingMount cfg r s o = Except.ok (false, r, s, o) := by
  unfold nandRingMount
  simp [hidle, hfew]

/-- Witness for C8 at a concrete input: an all-bad 64-block span has 0 good
blocks, and mounting fails while returning the ring and NAND unchanged. -/
theorem c8_mount_failure_atomic_w :
    nandRingMount cfg0 r0 sAllBad [] = Except.ok (false, r0, sAllBad, []) :=
  c8_mount_failure_atomic cfg0 r0 sAllBad [] (by decide) (by decide)

/-- Claim C9 counterexample: `nandRingUmount` called on a ring that is not
`MOUNTED` (here: `IDLE`) does not raise a fatal assertion — it returns
normally and simply stores `IDLE` — contradicting the claim that every
lifecycle transition except `WritePage` asserts its precondition state and
in particular that `Umount` is a fatal assertion unless `MOUNTED`. -/
theorem c9_state_checks_cex :
    r0.state ≠ RingSt.MOUNTED ∧
    nandRingUmount r0 = Except.ok { r0 with state := RingSt.IDLE } :=
  ⟨by decide, rfl⟩

/-- Claim C9 as amended: `Mount` and `Stop` assert `IDLE` and `WritePage`
(and `TotalGood`) assert `MOUNTED`, all raising a fatal assertion from any
other state; but `ObjectInit`, `Start` and `Umount` perform no ring-state
check at all: `Umount` moves any state to `IDLE`, `Start` (with a valid
configuration) moves any state to `IDLE`, and `ObjectInit` resets any state
to `UNINIT`. -/
theorem c9_state_checks_amended (cfg : NandRingConfig) (r : NandRing)
    (s : NandState) (o : List Bool) (nb : Nat) :
    (r.state ≠ RingSt.IDLE → nandRingMount cfg r s o = Except.error Fault.assert) ∧
    (r.state ≠ RingSt.IDLE → nandRingStop r = Except.error Fault.assert) ∧
    (r.state ≠ RingSt.MOUNTED →
      nandRingWritePage cfg r s o = Except.error Fault.assert) ∧
    (r.state ≠ RingSt.MOUNTED →
      nandRingTotalGood cfg r s = Except.error Fault.assert) ∧
    nandRingUmount r = Except.ok { r with state := RingSt.IDLE } ∧
    (nandRingObjectInit r).state = RingSt.UNINIT ∧
    (cfg.start_blk + cfg.len ≤ nb ∧ MIN_RING_SIZE ≤ cfg.len →
      nandRingStart cfg nb r = Except.ok { r with state := RingSt.IDLE }) := by
  refine ⟨?_, ?_, ?_, ?_, rfl, rfl, ?_⟩
  · intro h; unfold nandRingMount; simp [h]
  · intro h; unfold nandRingStop; simp [h]
  · intro h; unfold nandRingWritePage; simp [h]
  · intro h; unfold nandRingTotalGood; simp [h]
  · intro h; unfold nandRingStart; simp [h]

/-- Witness for the amended C9 at concrete inputs: a `MOUNTED` ring makes
`Stop` assert, while `Umount` from `IDLE` returns normally. -/
theorem c9_state_checks_amended_w :
    nandRingStop rM1 = Except.error Fault.assert ∧
    nandRingUmount r0 = Except.ok { r0 with state := RingSt.IDLE } :=
  ⟨(c9_state_checks_amended cfg0 rM1 freshNand [] 64).2.1 (by decide),
   (c9_state_checks_amended cfg0 r0 freshNand [] 64).2.2.2.2.1⟩

/-- Claim C4 evaluated at its failing input (a fresh, fully erased, all-good
64-block ring starting at block 0): mounting succeeds with `cur_page = 0`
and `cur_id = PAGE_ID_FIRST = 1`, but the installed `cur_blk` is block 1 —
`mkfs` runs `erase_next` *from* the first good block 0 and therefore erases
and returns the block after it — while the claim (and the source's own
`mkfs` comment) say `cur_blk` becomes the first good block `start_blk = 0`. -/
theorem c4_cold_mkfs_eval :
    mountRingView cfg0 r0 freshNand [] = some (true, 1, 0, 1) ∧
    cfg0.start_blk = 0 ∧ first_good cfg0 freshNand = some 0 := by
  constructor
  · decide
  · constructor
    · rfl
    · decide

/-- Claim C2 evaluated at its failing input: on a fresh ring append one page
(sealed id 1 at block 1 page 0), lose power, and recover.  A single recovery
yields `cur_blk = 2`, `cur_id = 2`; running the recovery a second time on
the same ring yields `cur_blk = 1`, `cur_id = 1` — not the same — because
`close_prev_session` zero-stamps the block starting *at* the last valid page
(destroying the only durable page), after which the second recovery finds an
empty ring and re-runs `mkfs`. -/
theorem c2_idempotent_close_eval :
    c2RecoverOnce = some (true, 2, 0, 2) ∧
    c2RecoverTwice = some (true, 1, 0, 1) := by
  constructor
  · decide
  · decide

theorem next_good_go_bad_congr (cfg : NandRingConfig) {s1 s2 : NandState}
    (h : s1.bad = s2.bad) :
    ∀ (fuel b : Nat), next_good_go cfg s1 b fuel = next_good_go cfg s2 b fuel := by
  intro fuel
  induction fuel with
  | zero => intro b; rfl
  | succ n ih =>
    intro b
    simp only [next_good_go, h]
    by_cases hb : s2.bad (ringNext cfg b) <;> simp [hb, ih]

theorem next_good_bad_congr (cfg : NandRingConfig) {s1 s2 : NandState}
    (h : s1.bad = s2.bad) (cur : Nat) :
    next_good cfg s1 cur = next_good cfg s2 cur :=
  next_good_go_bad_congr cfg h cfg.len cur

theorem next_good_go_not_bad (cfg : NandRingConfig) (s : NandState) :
    ∀ (fuel b nb : Nat), next_good_go cfg s b fuel = some nb → s.bad nb = false := by
  intro fuel
  induction fuel with
  | zero => intro b nb h; cases h
  | succ n ih =>
    intro b nb h
    simp only [next_good_go] at h
    by_cases hb : s.bad (ringNext cfg b)
    · rw [if_pos hb] at h; exact ih _ _ h
    · rw [if_neg hb] at h
      cases h
      simpa using hb

theorem next_good_not_bad (cfg : NandRingConfig) (s : NandState) {cur nb : Nat}
    (h : next_good cfg s cur = some nb) : s.bad nb = false :=
  next_good_go_not_bad cfg s cfg.len cur nb h

theorem next_good_step (cfg : NandRingConfig) (s : NandState) (cur : Nat)
    (hlen : 0 < cfg.len) (h : s.bad (ringNext cfg cur) = false) :
    next_good cfg s cur = some (ringNext cfg cur) := by
  unfold next_good
  obtain ⟨n, hn⟩ : ∃ n, cfg.len = n + 1 := ⟨cfg.len - 1, by omega⟩
  rw [hn]
  simp only [next_good_go]
  simp [h]

theorem erase_next_nil (cfg : NandRingConfig) {cur nb : Nat} {s : NandState}
    (hng : next_good cfg s cur = some nb) :
    erase_next cfg cur s [] = Except.ok (nb, eraseBlockOk s nb, []) := by
  unfold erase_next
  rw [hng]

theorem erase_next_ok_char (cfg : NandRingConfig) (cur : Nat) :
    ∀ (o : List Bool) (s : NandState) (nb : Nat) (s' : NandState) (o' : List Bool),
    erase_next cfg cur s o = Except.ok (nb, s', o') →
    (∀ q, s'.pg nb q = PageState.erased) ∧
    (∀ x q, x ≠ nb → s'.pg x q = s.pg x q) ∧
    s'.bad nb = false ∧
    (∀ x, s.bad x = true → s'.bad x = true) := by
  intro o
  induction o with
  | nil =>
    intro s nb s' o' h
    unfold erase_next at h
    cases hng : next_good cfg s cur with
    | none => rw [hng] at h; cases h
    | some blk =>
      rw [hng] at h
      simp only [Except.ok.injEq, Prod.mk.injEq] at h
      obtain ⟨h1, h2, _⟩ := h
      subst h1; subst h2
      refine ⟨fun q => by simp [eraseBlockOk_pg],
              fun x q hx => by simp [eraseBlockOk_pg, hx],
              ?_, fun x hx => hx⟩
      rw [eraseBlockOk_bad]
      exact next_good_not_bad cfg s hng
  | cons f rest ih =>
    intro s nb s' o' h
    unfold erase_next at h
    cases hng : next_good cfg s cur with
    | none => rw [hng] at h; cases h
    | some blk =>
      rw [hng] at h
      cases f with
      | true =>
        simp only [if_true] at h
        obtain ⟨h1, h2, h3, h4⟩ := ih (nandMarkBad s blk) nb s' o' h
        refine ⟨h1, fun x q hx => by rw [h2 x q hx, markBad_pg], h3,
                fun x hx => h4 x ?_⟩
        rw [markBad_bad]
        by_cases hxb : x = blk <;> simp [hxb, hx]
      | false =>
        simp only [Bool.false_eq_true, if_false, Except.ok.injEq,
          Prod.mk.injEq] at h
        obtain ⟨h1, h2, _⟩ := h
        subst h1; subst h2
        refine ⟨fun q => by simp [eraseBlockOk_pg],
                fun x q hx => by simp [eraseBlockOk_pg, hx],
                ?_, fun x hx => hx⟩
        rw [eraseBlockOk_bad]
        exact next_good_not_bad cfg s hng

theorem dataMoveOk_zero (s : NandState) (src dst : Nat) :
    dataMoveOk s src dst 0 = s := by
  unfold dataMoveOk
  cases s with
  | mk bad pg =>
    simp only [NandState.mk.injEq, true_and]
    funext x q
    simp

theorem write_loop_nil (cfg : NandRingConfig) (fuel blk page id : Nat)
    (s : NandState) :
    write_loop (fuel + 1) cfg blk page id s [] =
      Except.ok (blk, writeSpareOk (writeDataOk s blk page) blk page id, []) := rfl

theorem block_data_rescue_nil (cfg : NandRingConfig) {B nb : Nat} (p : Nat)
    {s1 : NandState} (hng : next_good cfg s1 B = some nb) :
    block_data_rescue cfg s1 B p [] =
      Except.ok (nb, dataMoveOk (eraseBlockOk s1 nb) B nb p, []) := by
  unfold block_data_rescue
  by_cases hp : 0 < p
  · rw [if_pos hp]
    show block_data_rescue_go (0 + 1) cfg s1 B p [] = _
    unfold block_data_rescue_go
    rw [erase_next_nil cfg hng]
  · rw [if_neg hp]
    rw [erase_next_nil cfg hng]
    have hp0 : p = 0 := by omega
    subst hp0
    rw [dataMoveOk_zero]

theorem write_loop_cons_true (cfg : NandRingConfig) (fuel blk page id : Nat)
    (s : NandState) (rest : List Bool) :
    write_loop (fuel + 1) cfg blk page id s (true :: rest) =
      match block_data_rescue cfg (nandMarkBad (writeDataFail s blk page) blk)
          blk page rest with
      | Except.error e => Except.error e
      | Except.ok (nb, s2, o2) => write_loop fuel cfg nb page id s2 o2 := rfl

theorem write_loop_cons_false_true (cfg : NandRingConfig) (fuel blk page id : Nat)
    (s : NandState) (rest2 : List Bool) :
    write_loop (fuel + 1) cfg blk page id s (false :: true :: rest2) =
      match block_data_rescue cfg
          (nandMarkBad (writeSpareFail (writeDataOk s blk page) blk page) blk)
          blk page rest2 with
      | Except.error e => Except.error e
      | Except.ok (nb, s2, o2) => write_loop fuel cfg nb page id s2 o2 := rfl

/-- Claim C7: on a mounted ring whose current page is the last page of the
block, a failure-free `write_page` seals that page, resets `cur_page` to 0
and advances `cur_blk` to the next good block (`nb`, per `next_good`), which
at that moment is fully erased (it was just erased by `erase_next`). -/
theorem c7_block_rollover (cfg : NandRingConfig) (r : NandRing) (s : NandState)
    (nb : Nat) (hm : r.state = RingSt.MOUNTED)
    (hfull : r.cur_page + 1 = cfg.ppb)
    (hng : next_good cfg s r.cur_blk = some nb) :
    ∃ s2, nandRingWritePage cfg r s [] =
        Except.ok ({ r with cur_blk := nb, cur_page := 0,
                            cur_id := r.cur_id + 1 }, s2, []) ∧
      blockErased cfg s2 nb := by
  have hbad1 : (writeSpareOk (writeDataOk s r.cur_blk r.cur_page) r.cur_blk
      r.cur_page r.cur_id).bad = s.bad := by
    rw [writeSpareOk_bad, writeDataOk_bad]
  have hng1 : next_good cfg (writeSpareOk (writeDataOk s r.cur_blk r.cur_page)
      r.cur_blk r.cur_page r.cur_id) r.cur_blk = some nb := by
    rw [next_good_bad_congr cfg hbad1]; exact hng
  refine ⟨eraseBlockOk (writeSpareOk (writeDataOk s r.cur_blk r.cur_page)
      r.cur_blk r.cur_page r.cur_id) nb, ?_, ?_⟩
  · unfold nandRingWritePage
    rw [if_neg (by rw [hm]; simp : ¬(r.state ≠ RingSt.MOUNTED))]
    simp only [List.length_nil, write_loop_nil, if_pos hfull,
      erase_next_nil cfg hng1]
  · intro p _
    simp [eraseBlockOk_pg]

theorem rescue_retry_char (cfg : NandRingConfig) (B p id : Nat)
    (s sM : NandState) (nb : Nat)
    (hbad : sM.bad = (nandMarkBad s B).bad)
    (hpg : ∀ q, q ≠ p → sM.pg B q = s.pg B q)
    (hng : next_good cfg (nandMarkBad s B) B = some nb) :
    block_data_rescue cfg sM B p [] =
      Except.ok (nb, dataMoveOk (eraseBlockOk sM nb) B nb p, []) ∧
    nb ≠ B ∧
    (writeSpareOk (writeDataOk (dataMoveOk (eraseBlockOk sM nb) B nb p) nb p)
        nb p id).bad B = true ∧
    (∀ q, q < p →
      (writeSpareOk (writeDataOk (dataMoveOk (eraseBlockOk sM nb) B nb p) nb p)
        nb p id).pg nb q = s.pg B q) ∧
    (writeSpareOk (writeDataOk (dataMoveOk (eraseBlockOk sM nb) B nb p) nb p)
        nb p id).pg nb p = PageState.sealed id ∧
    (∀ q, p < q →
      (writeSpareOk (writeDataOk (dataMoveOk (eraseBlockOk sM nb) B nb p) nb p)
        nb p id).pg nb q = PageState.erased) := by
  have hngM : next_good cfg sM B = some nb := by
    rw [next_good_bad_congr cfg hbad]; exact hng
  have hMnb : sM.bad nb = false := next_good_not_bad cfg sM hngM
  have hMB : sM.bad B = true := by rw [hbad, markBad_bad]; simp
  have hnbB : nb ≠ B := by
    intro e; rw [e, hMB] at hMnb; cases hMnb
  have hbadchain :
      (writeSpareOk (writeDataOk (dataMoveOk (eraseBlockOk sM nb) B nb p) nb p)
        nb p id).bad = sM.bad := by
    rw [writeSpareOk_bad, writeDataOk_bad, dataMoveOk_bad, eraseBlockOk_bad]
  have hmvp : (dataMoveOk (eraseBlockOk sM nb) B nb p).pg nb p =
      PageState.erased := by
    rw [dataMoveOk_pg]
    simp [eraseBlockOk_pg]
  refine ⟨block_data_rescue_nil cfg p hngM, hnbB, ?_, ?_, ?_, ?_⟩
  · rw [hbadchain, hMB]
  · intro q hq
    have hqp : ¬(nb = nb ∧ q = p) := by
      intro hc; omega
    rw [writeSpareOk_pg_ne _ _ _ _ _ _ hqp, writeDataOk_pg_ne _ _ _ _ _ hqp,
      dataMoveOk_pg]
    rw [if_pos ⟨rfl, hq⟩, eraseBlockOk_pg, if_neg (Ne.symm hnbB), hpg q (by omega)]
  · rw [writeSpareOk_pg_dw]
    exact writeDataOk_pg_erased _ _ _ hmvp
  · intro q hq
    have hqp : ¬(nb = nb ∧ q = p) := by
      intro hc; omega
    rw [writeSpareOk_pg_ne _ _ _ _ _ _ hqp, writeDataOk_pg_ne _ _ _ _ _ hqp,
      dataMoveOk_pg, if_neg (by intro hc; omega : ¬(nb = nb ∧ q < p)),
      eraseBlockOk_pg, if_pos rfl]

/-- Claim C5: when the data program (oracle `[true]`) or the spare program
(oracle `[false, true]`) fails at page `p = cur_page` of the current block,
`write_page` marks the failing block bad, moves pages `[0, p)` to a freshly
erased block `nb` (the next good block; nothing is moved when `p = 0`),
retries at the same page index with the same id, and the call completes
successfully: the caller sees a normal return with the page sealed under the
id that failed, `cur_id` advanced by exactly one, and the rest of `nb`
still erased. -/
theorem c5_rescue (cfg : NandRingConfig) (r : NandRing) (s : NandState)
    (nb : Nat) (hm : r.state = RingSt.MOUNTED)
    (hnr : r.cur_page + 1 ≠ cfg.ppb)
    (hng : next_good cfg (nandMarkBad s r.cur_blk) r.cur_blk = some nb) :
    (∃ s3, nandRingWritePage cfg r s [true] =
        Except.ok ({ r with cur_blk := nb, cur_page := r.cur_page + 1,
                            cur_id := r.cur_id + 1 }, s3, []) ∧
      s3.bad r.cur_blk = true ∧
      (∀ q, q < r.cur_page → s3.pg nb q = s.pg r.cur_blk q) ∧
      s3.pg nb r.cur_page = PageState.sealed r.cur_id ∧
      (∀ q, r.cur_page < q → s3.pg nb q = PageState.erased)) ∧
    (∃ s3, nandRingWritePage cfg r s [false, true] =
        Except.ok ({ r with cur_blk := nb, cur_page := r.cur_page + 1,
                            cur_id := r.cur_id + 1 }, s3, []) ∧
      s3.bad r.cur_blk = true ∧
      (∀ q, q < r.cur_page → s3.pg nb q = s.pg r.cur_blk q) ∧
      s3.pg nb r.cur_page = PageState.sealed r.cur_id ∧
      (∀ q, r.cur_page < q → s3.pg nb q = PageState.erased)) := by
  constructor
  · have hc := rescue_retry_char cfg r.cur_blk r.cur_page r.cur_id s
      (nandMarkBad (writeDataFail s r.cur_blk r.cur_page) r.cur_blk) nb
      rfl
      (fun q hq => by
        rw [markBad_pg, writeDataFail_pg,
          if_neg (by intro hc; exact hq hc.2 : ¬(r.cur_blk = r.cur_blk ∧ q = r.cur_page))])
      hng
    obtain ⟨hresc, _, hbadB, hcopy, hseal, herased⟩ := hc
    refine ⟨_, ?_, hbadB, hcopy, hseal, fun q hq => herased q hq⟩
    unfold nandRingWritePage
    rw [if_neg (by rw [hm]; simp : ¬(r.state ≠ RingSt.MOUNTED))]
    simp only [List.length_cons, List.length_nil, write_loop_cons_true,
      hresc, write_loop_nil]
    rw [if_neg hnr]
  · have hc := rescue_retry_char cfg r.cur_blk r.cur_page r.cur_id s
      (nandMarkBad (writeSpareFail (writeDataOk s r.cur_blk r.cur_page)
        r.cur_blk r.cur_page) r.cur_blk) nb
      (by
        funext x
        rw [markBad_bad, markBad_bad, writeSpareFail_bad, writeDataOk_bad])
      (fun q hq => by
        rw [markBad_pg, writeSpareFail_pg,
          if_neg (by intro hc; exact hq hc.2 : ¬(r.cur_blk = r.cur_blk ∧ q = r.cur_page)),
          writeDataOk_pg_ne _ _ _ _ _
            (by intro hc; exact hq hc.2 : ¬(r.cur_blk = r.cur_blk ∧ q = r.cur_page))])
      hng
    obtain ⟨hresc, _, hbadB, hcopy, hseal, herased⟩ := hc
    refine ⟨_, ?_, hbadB, hcopy, hseal, fun q hq => herased q hq⟩
    unfold nandRingWritePage
    rw [if_neg (by rw [hm]; simp : ¬(r.state ≠ RingSt.MOUNTED))]
    simp only [List.length_cons, List.length_nil, write_loop_cons_false_true,
      hresc, write_loop_nil]
    rw [if_neg hnr]

/-- Witness for C5 at a concrete input: ring mounted at block 1, page 1,
id 2 over a NAND whose block 1 page 0 is sealed with id 1; the next good
block after marking block 1 bad is block 2. -/
theorem c5_rescue_w :
    (∃ s3, nandRingWritePage cfg4 rM1 sOne [true] =
        Except.ok ({ rM1 with
          cur_blk := 2,
          cur_page := rM1.cur_page + 1,
          cur_id := rM1.cur_id + 1 }, s3, []) ∧
      s3.bad rM1.cur_blk = true ∧
      (∀ q, q < rM1.cur_page → s3.pg 2 q = sOne.pg rM1.cur_blk q) ∧
      s3.pg 2 rM1.cur_page = PageState.sealed rM1.cur_id ∧
      (∀ q, rM1.cur_page < q → s3.pg 2 q = PageState.erased)) ∧
    (∃ s3, nandRingWritePage cfg4 rM1 sOne [false, true] =
        Except.ok ({ rM1 with
          cur_blk := 2,
          cur_page := rM1.cur_page + 1,
          cur_id := rM1.cur_id + 1 }, s3, []) ∧
      s3.bad rM1.cur_blk = true ∧
      (∀ q, q < rM1.cur_page → s3.pg 2 q = sOne.pg rM1.cur_blk q) ∧
      s3.pg 2 rM1.cur_page = PageState.sealed rM1.cur_id ∧
      (∀ q, rM1.cur_page < q → s3.pg 2 q = PageState.erased)) :=
  c5_rescue cfg4 rM1 sOne 2 rfl
    (by decide) (by decide)

/-- Witness for C7 at a concrete input: ring mounted at block 1, page 1 of a
2-page-per-block ring; after the append, `cur_blk` advances to block 2,
which reads fully erased. -/
theorem c7_block_rollover_w :
    ∃ s2, nandRingWritePage cfg0 rM1 sOne [] =
        Except.ok ({ rM1 with
          cur_blk := 2,
          cur_page := 0,
          cur_id := rM1.cur_id + 1 }, s2, []) ∧
      blockErased cfg0 s2 2 :=
  c7_block_rollover cfg0 rM1 sOne 2 rfl (by decide) (by decide)

theorem sealedBelow_mono {s : NandState} {b1 b2 : Nat} (h12 : b1 ≤ b2)
    (h : sealedBelow s b1) : sealedBelow s b2 :=
  fun b p i hi => lt_of_lt_of_le (h b p i hi) h12

theorem sealedBelow_setPg {s : NandState} {bound : Nat} (h : sealedBelow s bound)
    {st : PageState} (hst : ∀ j, st = PageState.sealed j → j < bound)
    (b p : Nat) : sealedBelow (setPg s b p st) bound := by
  intro b' p' i hi
  rw [setPg_pg] at hi
  by_cases hb : b' = b ∧ p' = p
  · rw [if_pos hb] at hi; exact hst i hi
  · rw [if_neg hb] at hi; exact h b' p' i hi

theorem sealedBelow_markBad {s : NandState} {bound : Nat} (h : sealedBelow s bound)
    (b : Nat) : sealedBelow (nandMarkBad s b) bound := h

theorem sealedBelow_erase {s : NandState} {bound : Nat} (h : sealedBelow s bound)
    (b : Nat) : sealedBelow (eraseBlockOk s b) bound := by
  intro b' p' i hi
  rw [eraseBlockOk_pg] at hi
  by_cases hb : b' = b
  · rw [if_pos hb] at hi; cases hi
  · rw [if_neg hb] at hi; exact h b' p' i hi

theorem sealedBelow_writeDataOk {s : NandState} {bound : Nat}
    (h : sealedBelow s bound) (b p : Nat) :
    sealedBelow (writeDataOk s b p) bound := by
  unfold writeDataOk
  cases s.pg b p <;> exact sealedBelow_setPg h (fun j hj => by cases hj) b p

theorem sealedBelow_writeDataFail {s : NandState} {bound : Nat}
    (h : sealedBelow s bound) (b p : Nat) :
    sealedBelow (writeDataFail s b p) bound :=
  sealedBelow_setPg h (fun j hj => by cases hj) b p

theorem sealedBelow_writeSpareFail {s : NandState} {bound : Nat}
    (h : sealedBelow s bound) (b p : Nat) :
    sealedBelow (writeSpareFail s b p) bound :=
  sealedBelow_setPg h (fun j hj => by cases hj) b p

theorem sealedBelow_writeSpareOk {s : NandState} {bound : Nat}
    (h : sealedBelow s bound) {id : Nat} (hid : id < bound) (b p : Nat) :
    sealedBelow (writeSpareOk s b p id) bound := by
  unfold writeSpareOk
  cases s.pg b p <;>
    exact sealedBelow_setPg h
      (fun j hj => by cases hj; all_goals exact hid) b p

theorem sealedBelow_dataMoveOk {s : NandState} {bound : Nat}
    (h : sealedBelow s bound) (src dst n : Nat) :
    sealedBelow (dataMoveOk s src dst n) bound := by
  intro b' p' i hi
  rw [dataMoveOk_pg] at hi
  by_cases hb : b' = dst ∧ p' < n
  · rw [if_pos hb] at hi; exact h src p' i hi
  · rw [if_neg hb] at hi; exact h b' p' i hi

theorem sealedBelow_dataMoveFail {s : NandState} {bound : Nat}
    (h : sealedBelow s bound) (src dst n : Nat) :
    sealedBelow (dataMoveFail s src dst n) bound := by
  intro b' p' i hi
  rw [dataMoveFail_pg] at hi
  by_cases hb : b' = dst ∧ p' < n
  · rw [if_pos hb] at hi; cases hi
  · rw [if_neg hb] at hi; exact h b' p' i hi

theorem sealedBelow_erase_next (cfg : NandRingConfig) {cur : Nat}
    {o : List Bool} {s : NandState} {nb : Nat} {s' : NandState} {o' : List Bool}
    {bound : Nat} (h : sealedBelow s bound)
    (hok : erase_next cfg cur s o = Except.ok (nb, s', o')) :
    sealedBelow s' bound := by
  obtain ⟨h1, h2, _, _⟩ := erase_next_ok_char cfg cur o s nb s' o' hok
  intro b p i hi
  by_cases hb : b = nb
  · rw [hb, h1 p] at hi; cases hi
  · rw [h2 b p hb] at hi; exact h b p i hi

theorem sealedBelow_rescue_go (cfg : NandRingConfig) :
    ∀ (fuel : Nat) {s : NandState} (B p : Nat) (o : List Bool)
      {nb : Nat} {s' : NandState} {o' : List Bool} {bound : Nat},
    sealedBelow s bound →
    block_data_rescue_go fuel cfg s B p o = Except.ok (nb, s', o') →
    sealedBelow s' bound := by
  intro fuel
  induction fuel with
  | zero => intro s B p o nb s' o' bound _ hok; cases hok
  | succ n ih =>
    intro s B p o nb s' o' bound h hok
    unfold block_data_rescue_go at hok
    cases hen : erase_next cfg B s o with
    | error e => rw [hen] at hok; cases hok
    | ok x =>
      obtain ⟨t, s1, o1⟩ := x
      rw [hen] at hok
      have hs1 := sealedBelow_erase_next cfg h hen
      cases o1 with
      | nil =>
        simp only [Except.ok.injEq, Prod.mk.injEq] at hok
        obtain ⟨e1, e2, _⟩ := hok
        subst e1; subst e2
        exact sealedBelow_dataMoveOk hs1 B t p
      | cons f rest =>
        cases f with
        | true =>
          simp only [if_true] at hok
          exact ih B p rest
            (sealedBelow_markBad (sealedBelow_dataMoveFail hs1 B t p) t) hok
        | false =>
          simp only [Bool.false_eq_true, if_false, Except.ok.injEq,
            Prod.mk.injEq] at hok
          obtain ⟨e1, e2, _⟩ := hok
          subst e1; subst e2
          exact sealedBelow_dataMoveOk hs1 B t p

theorem sealedBelow_rescue (cfg : NandRingConfig) {s : NandState} (B p : Nat)
    (o : List Bool) {nb : Nat} {s' : NandState} {o' : List Bool} {bound : Nat}
    (h : sealedBelow s bound)
    (hok : block_data_rescue cfg s B p o = Except.ok (nb, s', o')) :
    sealedBelow s' bound := by
  unfold block_data_rescue at hok
  by_cases hp : 0 < p
  · rw [if_pos hp] at hok
    exact sealedBelow_rescue_go cfg (o.length + 1) B p o h hok
  · rw [if_neg hp] at hok
    exact sealedBelow_erase_next cfg h hok

theorem sealedBelow_write_loop (cfg : NandRingConfig) :
    ∀ (fuel : Nat) {blk page id : Nat} {s : NandState} {o : List Bool}
      {b' : Nat} {s' : NandState} {o' : List Bool},
    sealedBelow s (id + 1) →
    write_loop fuel cfg blk page id s o = Except.ok (b', s', o') →
    sealedBelow s' (id + 1) := by
  intro fuel
  induction fuel with
  | zero => intro blk page id s o b' s' o' _ hok; cases hok
  | succ n ih =>
    intro blk page id s o b' s' o' h hok
    unfold write_loop at hok
    cases o with
    | nil =>
      simp only [Except.ok.injEq, Prod.mk.injEq] at hok
      obtain ⟨e1, e2, _⟩ := hok
      subst e1; subst e2
      exact sealedBelow_writeSpareOk (sealedBelow_writeDataOk h blk page)
        (Nat.lt_succ_self id) blk page
    | cons f rest =>
      cases f with
      | true =>
        simp only [if_true] at hok
        cases hr : block_data_rescue cfg
            (nandMarkBad (writeDataFail s blk page) blk) blk page rest with
        | error e => rw [hr] at hok; cases hok
        | ok x =>
          obtain ⟨nb, s2, o2⟩ := x
          rw [hr] at hok
          exact ih (sealedBelow_rescue cfg blk page rest
            (sealedBelow_markBad (sealedBelow_writeDataFail h blk page) blk) hr) hok
      | false =>
        simp only [Bool.false_eq_true, if_false] at hok
        cases rest with
        | nil =>
          simp only [Except.ok.injEq, Prod.mk.injEq] at hok
          obtain ⟨e1, e2, _⟩ := hok
          subst e1; subst e2
          exact sealedBelow_writeSpareOk (sealedBelow_writeDataOk h blk page)
            (Nat.lt_succ_self id) blk page
        | cons g rest2 =>
          cases g with
          | true =>
            simp only [if_true] at hok
            cases hr : block_data_rescue cfg
                (nandMarkBad (writeSpareFail (writeDataOk s blk page) blk page)
                  blk) blk page rest2 with
            | error e => rw [hr] at hok; cases hok
            | ok x =>
              obtain ⟨nb, s2, o2⟩ := x
              rw [hr] at hok
              exact ih (sealedBelow_rescue cfg blk page rest2
                (sealedBelow_markBad (sealedBelow_writeSpareFail
                  (sealedBelow_writeDataOk h blk page) blk page) blk) hr) hok
          | false =>
            simp only [Bool.false_eq_true, if_false, Except.ok.injEq,
              Prod.mk.injEq] at hok
            obtain ⟨e1, e2, _⟩ := hok
            subst e1; subst e2
            exact sealedBelow_writeSpareOk (sealedBelow_writeDataOk h blk page)
              (Nat.lt_succ_self id) blk page

theorem writePage_ok_char (cfg : NandRingConfig) {r : NandRing}
    {s : NandState} {o : List Bool} {r' : NandRing} {s' : NandState}
    {o' : List Bool} (h : sealedBelow s r.cur_id)
    (hok : nandRingWritePage cfg r s o = Except.ok (r', s', o')) :
    sealedBelow s' r'.cur_id ∧ r'.cur_id = r.cur_id + 1 ∧ r'.state = r.state := by
  unfold nandRingWritePage at hok
  by_cases hm : r.state ≠ RingSt.MOUNTED
  · rw [if_pos hm] at hok; cases hok
  · rw [if_neg hm] at hok
    have h1 : sealedBelow s (r.cur_id + 1) := sealedBelow_mono (Nat.le_succ _) h
    cases hw : write_loop (o.length + 1) cfg r.cur_blk r.cur_page r.cur_id s o with
    | error e => rw [hw] at hok; cases hok
    | ok x =>
      obtain ⟨blk, s1, o1⟩ := x
      rw [hw] at hok
      dsimp only at hok
      have hs1 : sealedBelow s1 (r.cur_id + 1) :=
        sealedBelow_write_loop cfg (o.length + 1) h1 hw
      by_cases hroll : r.cur_page + 1 = cfg.ppb
      · rw [if_pos hroll] at hok
        cases he : erase_next cfg blk s1 o1 with
        | error e => rw [he] at hok; cases hok
        | ok y =>
          obtain ⟨nb, s2, o2⟩ := y
          rw [he] at hok
          simp only [Except.ok.injEq, Prod.mk.injEq] at hok
          obtain ⟨e1, e2, _⟩ := hok
          subst e1; subst e2
          exact ⟨sealedBelow_erase_next cfg hs1 he, rfl, rfl⟩
      · rw [if_neg hroll] at hok
        simp only [Except.ok.injEq, Prod.mk.injEq] at hok
        obtain ⟨e1, e2, _⟩ := hok
        subst e1; subst e2
        exact ⟨hs1, rfl, rfl⟩

theorem runWritesOr_char (cfg : NandRingConfig) :
    ∀ (os : List (List Bool)) {r : NandRing} {s : NandState} {r' : NandRing}
      {s' : NandState},
    r.state = RingSt.MOUNTED → sealedBelow s r.cur_id →
    runWritesOr cfg os r s = Except.ok (r', s') →
    sealedBelow s' r'.cur_id ∧ r'.cur_id = r.cur_id + os.length ∧
      r'.state = RingSt.MOUNTED := by
  intro os
  induction os with
  | nil =>
    intro r s r' s' hm h hok
    simp only [runWritesOr, Except.ok.injEq, Prod.mk.injEq] at hok
    obtain ⟨e1, e2⟩ := hok
    subst e1; subst e2
    exact ⟨h, by simp, hm⟩
  | cons o os ih =>
    intro r s r' s' hm h hok
    simp only [runWritesOr] at hok
    cases hw : nandRingWritePage cfg r s o with
    | error e => rw [hw] at hok; cases hok
    | ok x =>
      obtain ⟨r1, s1, o1⟩ := x
      rw [hw] at hok
      obtain ⟨hb1, hid1, hst1⟩ := writePage_ok_char cfg h hw
      obtain ⟨hb2, hid2, hst2⟩ := ih (hst1.trans hm) (hid1 ▸ hb1) hok
      refine ⟨hb2, ?_, hst2⟩
      rw [hid2, hid1, List.length_cons]
      omega

theorem writePage_ok_id (cfg : NandRingConfig) {r : NandRing} {s : NandState}
    {o : List Bool} {x : NandRing × NandState × List Bool}
    (hok : nandRingWritePage cfg r s o = Except.ok x) :
    x.1.cur_id = r.cur_id + 1 := by
  unfold nandRingWritePage at hok
  by_cases hm : r.state ≠ RingSt.MOUNTED
  · rw [if_pos hm] at hok; cases hok
  · rw [if_neg hm] at hok
    cases hw : write_loop (o.length + 1) cfg r.cur_blk r.cur_page r.cur_id s o with
    | error e => rw [hw] at hok; cases hok
    | ok y =>
      obtain ⟨blk, s1, o1⟩ := y
      rw [hw] at hok
      dsimp only at hok
      by_cases hroll : r.cur_page + 1 = cfg.ppb
      · rw [if_pos hroll] at hok
        cases he : erase_next cfg blk s1 o1 with
        | error e => rw [he] at hok; cases hok
        | ok z =>
          obtain ⟨nb, s2, o2⟩ := z
          rw [he] at hok
          cases hok
          rfl
      · rw [if_neg hroll] at hok
        cases hok
        rfl

theorem rescue_go_target_page (cfg : NandRingConfig) :
    ∀ (fuel : Nat) {s : NandState} {B p : Nat} {o : List Bool} {nb : Nat}
      {s' : NandState} {o' : List Bool},
    block_data_rescue_go fuel cfg s B p o = Except.ok (nb, s', o') →
    s'.pg nb p = PageState.erased := by
  intro fuel
  induction fuel with
  | zero => intro s B p o nb s' o' hok; cases hok
  | succ n ih =>
    intro s B p o nb s' o' hok
    unfold block_data_rescue_go at hok
    cases hen : erase_next cfg B s o with
    | error e => rw [hen] at hok; cases hok
    | ok x =>
      obtain ⟨t, s1, o1⟩ := x
      rw [hen] at hok
      obtain ⟨he1, _, _, _⟩ := erase_next_ok_char cfg B o s t s1 o1 hen
      cases o1 with
      | nil =>
        cases hok
        rw [dataMoveOk_pg, if_neg (by intro hc; omega : ¬(nb = nb ∧ p < p))]
        exact he1 p
      | cons f rest =>
        cases f with
        | true =>
          simp only [if_true] at hok
          exact ih hok
        | false =>
          simp only [Bool.false_eq_true, if_false] at hok
          cases hok
          rw [dataMoveOk_pg, if_neg (by intro hc; omega : ¬(nb = nb ∧ p < p))]
          exact he1 p

theorem rescue_target_page (cfg : NandRingConfig) {s : NandState} {B p : Nat}
    {o : List Bool} {nb : Nat} {s' : NandState} {o' : List Bool}
    (hok : block_data_rescue cfg s B p o = Except.ok (nb, s', o')) :
    s'.pg nb p = PageState.erased := by
  unfold block_data_rescue at hok
  by_cases hp : 0 < p
  · rw [if_pos hp] at hok
    exact rescue_go_target_page cfg (o.length + 1) hok
  · rw [if_neg hp] at hok
    obtain ⟨he1, _, _, _⟩ := erase_next_ok_char cfg B o s nb s' o' hok
    exact he1 p

theorem write_loop_seals (cfg : NandRingConfig) :
    ∀ (fuel : Nat) {blk page id : Nat} {s : NandState} {o : List Bool}
      {b' : Nat} {s' : NandState} {o' : List Bool},
    s.pg blk page = PageState.erased →
    write_loop fuel cfg blk page id s o = Except.ok (b', s', o') →
    s'.pg b' page = PageState.sealed id := by
  intro fuel
  induction fuel with
  | zero => intro blk page id s o b' s' o' _ hok; cases hok
  | succ n ih =>
    intro blk page id s o b' s' o' herased hok
    unfold write_loop at hok
    cases o with
    | nil =>
      cases hok
      rw [writeSpareOk_pg_dw]
      exact writeDataOk_pg_erased _ _ _ herased
    | cons f rest =>
      cases f with
      | true =>
        simp only [if_true] at hok
        cases hr : block_data_rescue cfg
            (nandMarkBad (writeDataFail s blk page) blk) blk page rest with
        | error e => rw [hr] at hok; cases hok
        | ok x =>
          obtain ⟨nb, s2, o2⟩ := x
          rw [hr] at hok
          exact ih (rescue_target_page cfg hr) hok
      | false =>
        simp only [Bool.false_eq_true, if_false] at hok
        cases rest with
        | nil =>
          cases hok
          rw [writeSpareOk_pg_dw]
          exact writeDataOk_pg_erased _ _ _ herased
        | cons g rest2 =>
          cases g with
          | true =>
            simp only [if_true] at hok
            cases hr : block_data_rescue cfg
                (nandMarkBad (writeSpareFail (writeDataOk s blk page) blk page)
                  blk) blk page rest2 with
            | error e => rw [hr] at hok; cases hok
            | ok x =>
              obtain ⟨nb, s2, o2⟩ := x
              rw [hr] at hok
              exact ih (rescue_target_page cfg hr) hok
          | false =>
            simp only [Bool.false_eq_true, if_false] at hok
            cases hok
            rw [writeSpareOk_pg_dw]
            exact writeDataOk_pg_erased _ _ _ herased

theorem writePage_ok_seals (cfg : NandRingConfig) {r : NandRing}
    {s : NandState} {o : List Bool} {r' : NandRing} {s' : NandState}
    {o' : List Bool} (herased : s.pg r.cur_blk r.cur_page = PageState.erased)
    (hnr : r.cur_page + 1 ≠ cfg.ppb)
    (hok : nandRingWritePage cfg r s o = Except.ok (r', s', o')) :
    s'.pg r'.cur_blk r.cur_page = PageState.sealed r.cur_id ∧
    r'.cur_page = r.cur_page + 1 := by
  unfold nandRingWritePage at hok
  by_cases hm : r.state ≠ RingSt.MOUNTED
  · rw [if_pos hm] at hok; cases hok
  · rw [if_neg hm] at hok
    cases hw : write_loop (o.length + 1) cfg r.cur_blk r.cur_page r.cur_id s o with
    | error e => rw [hw] at hok; cases hok
    | ok y =>
      obtain ⟨blk, s1, o1⟩ := y
      rw [hw] at hok
      dsimp only at hok
      rw [if_neg hnr] at hok
      cases hok
      exact ⟨write_loop_seals cfg (o.length + 1) herased hw, rfl⟩

/-- Claim C3: (1) across any sequence of `write_page` calls with arbitrary
injected program failures, if every durable (CRC-valid) page's id is below
`cur_id` then this stays true after the run — so the page sealed by each
call (stamped with that call's `cur_id`) is strictly greater than every
durable page present before it — and `cur_id` grows by exactly the number
of calls; (2) every single successful `write_page` call, whatever failures
were injected, advances `cur_id` by exactly one (one identifier consumed
per call, never reused); (3) the call seals exactly its own `cur_id` at the
retried page. -/
theorem c3_monotonic_ids :
    (∀ (cfg : NandRingConfig) (os : List (List Bool)) (r : NandRing)
       (s : NandState) (r' : NandRing) (s' : NandState),
      r.state = RingSt.MOUNTED → sealedBelow s r.cur_id →
      runWritesOr cfg os r s = Except.ok (r', s') →
      sealedBelow s' r'.cur_id ∧ r'.cur_id = r.cur_id + os.length) ∧
    (∀ (cfg : NandRingConfig) (r : NandRing) (s : NandState) (o : List Bool)
       (x : NandRing × NandState × List Bool),
      nandRingWritePage cfg r s o = Except.ok x →
      x.1.cur_id = r.cur_id + 1) ∧
    (∀ (cfg : NandRingConfig) (r : NandRing) (s : NandState) (o : List Bool)
       (r' : NandRing) (s' : NandState) (o' : List Bool),
      s.pg r.cur_blk r.cur_page = PageState.erased →
      r.cur_page + 1 ≠ cfg.ppb →
      nandRingWritePage cfg r s o = Except.ok (r', s', o') →
      s'.pg r'.cur_blk r.cur_page = PageState.sealed r.cur_id) := by
  refine ⟨?_, ?_, ?_⟩
  · intro cfg os r s r' s' hm h hok
    obtain ⟨h1, h2, _⟩ := runWritesOr_char cfg os hm h hok
    exact ⟨h1, h2⟩
  · intro cfg r s o x hok
    exact writePage_ok_id cfg hok
  · intro cfg r s o r' s' o' herased hnr hok
    exact (writePage_ok_seals cfg herased hnr hok).1

/-- Witness for C3 at a concrete input: one failure-free append on the ring
mounted at block 1, page 1, id 2, over a NAND holding one durable page of
id 1: afterwards every durable id is below the new `cur_id = 3`, which is
the old `cur_id` plus the one call made. -/
theorem c3_monotonic_ids_w :
    sealedBelow (writeSpareOk (writeDataOk sOne 1 1) 1 1 2) 3 ∧
    ({ rM1 with cur_blk := 1, cur_page := 2, cur_id := 3 } : NandRing).cur_id =
      rM1.cur_id + List.length ([[]] : List (List Bool)) :=
  c3_monotonic_ids.1 cfg4 [[]] rM1 sOne
    { rM1 with cur_blk := 1, cur_page := 2, cur_id := 3 }
    (writeSpareOk (writeDataOk sOne 1 1) 1 1 2)
    rfl
    (by
      intro b p i hi
      simp only [sOne] at hi
      split at hi
      · injection hi with h2
        subst h2
        decide
      · cases hi)
    rfl

theorem P6_of_block_change (cfg : NandRingConfig) {s s2 : NandState} {b : Nat}
    (h : validPagesContiguous cfg s)
    (hother : ∀ x q, x ≠ b → s2.pg x q = s.pg x q)
    (hb : ∀ j, j < cfg.len → cfg.start_blk + j = b →
      ∀ p, p < cfg.ppb - 1 → isValid (s2.pg b (p + 1)) = true →
        isValid (s2.pg b p) = true) :
    validPagesContiguous cfg s2 := by
  intro j hj p hp hv
  by_cases hxb : cfg.start_blk + j = b
  · rw [hxb] at hv ⊢
    exact hb j hj hxb p hp hv
  · rw [hother _ _ hxb] at hv ⊢
    exact h j hj p hp hv

theorem P6_erase_next (cfg : NandRingConfig) {cur : Nat} {o : List Bool}
    {s : NandState} {nb : Nat} {s' : NandState} {o' : List Bool}
    (h : validPagesContiguous cfg s)
    (hok : erase_next cfg cur s o = Except.ok (nb, s', o')) :
    validPagesContiguous cfg s' ∧ (∀ q, s'.pg nb q = PageState.erased) := by
  obtain ⟨h1, h2, _, _⟩ := erase_next_ok_char cfg cur o s nb s' o' hok
  refine ⟨P6_of_block_change cfg h (fun x q hx => h2 x q hx) ?_, h1⟩
  intro j _ _ p _ hv
  rw [h1 (p + 1)] at hv
  cases hv

theorem P6_rescue_go (cfg : NandRingConfig) :
    ∀ (fuel : Nat) {s : NandState} {B p : Nat} {o : List Bool} {nb : Nat}
      {s' : NandState} {o' : List Bool},
    validPagesContiguous cfg s →
    (∀ q, q < p → isValid (s.pg B q) = true) →
    s.bad B = true →
    block_data_rescue_go fuel cfg s B p o = Except.ok (nb, s', o') →
    validPagesContiguous cfg s' ∧
    (∀ q, q < p → isValid (s'.pg nb q) = true) ∧
    (∀ q, p ≤ q → s'.pg nb q = PageState.erased) := by
  intro fuel
  induction fuel with
  | zero => intro s B p o nb s' o' _ _ _ hok; cases hok
  | succ n ih =>
    intro s B p o nb s' o' h hpre hbad hok
    unfold block_data_rescue_go at hok
    cases hen : erase_next cfg B s o with
    | error e => rw [hen] at hok; cases hok
    | ok x =>
      obtain ⟨t, s1, o1⟩ := x
      rw [hen] at hok
      obtain ⟨he1, he2, he3, he4⟩ := erase_next_ok_char cfg B o s t s1 o1 hen
      have htB : t ≠ B := by
        intro e; rw [e] at he3; rw [he4 B hbad] at he3; cases he3
      have h1 : validPagesContiguous cfg s1 := (P6_erase_next cfg h hen).1
      have hpre1 : ∀ q, q < p → isValid (s1.pg B q) = true := by
        intro q hq; rw [he2 B q (fun e => htB e.symm)]; exact hpre q hq
      have hmv : validPagesContiguous cfg (dataMoveOk s1 B t p) := by
        refine P6_of_block_change cfg h1
          (fun x q hx => by
            rw [dataMoveOk_pg, if_neg (by intro hc; exact hx hc.1)]) ?_
        intro j _ _ q _ hv
        rw [dataMoveOk_pg] at hv
        rw [dataMoveOk_pg]
        by_cases hc : q + 1 < p
        · rw [if_pos ⟨rfl, by omega⟩]
          rw [if_pos ⟨rfl, hc⟩] at hv
          exact hpre1 q (by omega)
        · rw [if_neg (by intro hc2; exact hc hc2.2), he1 (q + 1)] at hv
          cases hv
      cases o1 with
      | nil =>
        cases hok
        refine ⟨hmv, ?_, ?_⟩
        · intro q hq
          rw [dataMoveOk_pg, if_pos ⟨rfl, hq⟩]
          exact hpre1 q hq
        · intro q hq
          rw [dataMoveOk_pg, if_neg (by intro hc; omega : ¬(nb = nb ∧ q < p))]
          exact he1 q
      | cons f rest =>
        cases f with
        | true =>
          simp only [if_true] at hok
          refine ih ?_ ?_ ?_ hok
          · refine P6_of_block_change cfg h1
              (fun x q hx => by rw [markBad_pg, dataMoveFail_pg,
                if_neg (by intro hc; exact hx hc.1)]) ?_
            intro j _ _ q _ hv
            rw [markBad_pg, dataMoveFail_pg] at hv
            by_cases hc : q + 1 < p
            · rw [if_pos ⟨rfl, hc⟩] at hv; cases hv
            · rw [if_neg (by intro hc2; exact hc hc2.2), he1 (q + 1)] at hv
              cases hv
          · intro q hq
            rw [markBad_pg, dataMoveFail_pg,
              if_neg (by intro hc; exact htB hc.1.symm)]
            exact hpre1 q hq
          · rw [markBad_bad]
            by_cases hc : B = t
            · exact absurd hc.symm htB
            · rw [if_neg hc, dataMoveFail_bad]
              exact he4 B hbad
        | false =>
          simp only [Bool.false_eq_true, if_false] at hok
          cases hok
          refine ⟨hmv, ?_, ?_⟩
          · intro q hq
            rw [dataMoveOk_pg, if_pos ⟨rfl, hq⟩]
            exact hpre1 q hq
          · intro q hq
            rw [dataMoveOk_pg, if_neg (by intro hc; omega : ¬(nb = nb ∧ q < p))]
            exact he1 q

theorem P6_rescue (cfg : NandRingConfig) {s : NandState} {B p : Nat}
    {o : List Bool} {nb : Nat} {s' : NandState} {o' : List Bool}
    (h : validPagesContiguous cfg s)
    (hpre : ∀ q, q < p → isValid (s.pg B q) = true)
    (hbad : s.bad B = true)
    (hok : block_data_rescue cfg s B p o = Except.ok (nb, s', o')) :
    validPagesContiguous cfg s' ∧
    (∀ q, q < p → isValid (s'.pg nb q) = true) ∧
    (∀ q, p ≤ q → s'.pg nb q = PageState.erased) := by
  unfold block_data_rescue at hok
  by_cases hp : 0 < p
  · rw [if_pos hp] at hok
    exact P6_rescue_go cfg (o.length + 1) h hpre hbad hok
  · rw [if_neg hp] at hok
    obtain ⟨hP, he⟩ := P6_erase_next cfg h hok
    exact ⟨hP, fun q hq => absurd hq (by omega), fun q _ => he q⟩

theorem close_fill_pg_outside (blk : Nat) :
    ∀ (count : Nat) (s : NandState) (o : List Bool) (page x q : Nat),
    (x ≠ blk ∨ q < page ∨ page + count ≤ q) →
    ((close_fill blk s o page count).1).pg x q = s.pg x q := by
  intro count
  induction count with
  | zero => intro s o page x q _; rfl
  | succ n ih =>
    intro s o page x q hout
    have hne : ¬(x = blk ∧ q = page) := by
      intro hc
      rcases hout with h | h | h
      · exact h hc.1
      · omega
      · omega
    have hout1 : x ≠ blk ∨ q < page + 1 ∨ (page + 1) + n ≤ q := by
      rcases hout with h | h | h
      · exact Or.inl h
      · exact Or.inr (Or.inl (by omega))
      · exact Or.inr (Or.inr (by omega))
    cases o with
    | nil =>
      show ((close_fill blk (writeWholeZeroOk s blk page) [] (page + 1) n).1).pg x q = _
      rw [ih _ _ _ _ _ hout1, writeWholeZeroOk_pg, if_neg hne]
    | cons f rest =>
      cases f with
      | true =>
        show ((close_fill blk (nandMarkBad (writeWholeZeroFail s blk page) blk)
            rest (page + 1) n).1).pg x q = _
        rw [ih _ _ _ _ _ hout1, markBad_pg, writeWholeZeroFail_pg, if_neg hne]
      | false =>
        show ((close_fill blk (writeWholeZeroOk s blk page) rest (page + 1) n).1).pg x q = _
        rw [ih _ _ _ _ _ hout1, writeWholeZeroOk_pg, if_neg hne]

theorem close_fill_pg_inside (blk : Nat) :
    ∀ (count : Nat) (s : NandState) (o : List Bool) (page q : Nat),
    page ≤ q → q < page + count →
    isValid (((close_fill blk s o page count).1).pg blk q) = false := by
  intro count
  induction count with
  | zero => intro s o page q h1 h2; omega
  | succ n ih =>
    intro s o page q h1 h2
    by_cases hq : q = page
    · subst hq
      have hout : (blk : Nat) ≠ blk ∨ q < q + 1 ∨ (q + 1) + n ≤ q :=
        Or.inr (Or.inl (by omega))
      cases o with
      | nil =>
        show isValid (((close_fill blk (writeWholeZeroOk s blk q) [] (q + 1) n).1).pg blk q) = false
        rw [close_fill_pg_outside blk n _ _ _ _ _ hout, writeWholeZeroOk_pg,
          if_pos ⟨rfl, rfl⟩]
        rfl
      | cons f rest =>
        cases f with
        | true =>
          show isValid (((close_fill blk (nandMarkBad (writeWholeZeroFail s blk q) blk)
              rest (q + 1) n).1).pg blk q) = false
          rw [close_fill_pg_outside blk n _ _ _ _ _ hout, markBad_pg,
            writeWholeZeroFail_pg, if_pos ⟨rfl, rfl⟩]
          rfl
        | false =>
          show isValid (((close_fill blk (writeWholeZeroOk s blk q) rest (q + 1) n).1).pg blk q) = false
          rw [close_fill_pg_outside blk n _ _ _ _ _ hout, writeWholeZeroOk_pg,
            if_pos ⟨rfl, rfl⟩]
          rfl
    · have h1' : page + 1 ≤ q := by omega
      have h2' : q < (page + 1) + n := by omega
      cases o with
      | nil => exact ih _ _ _ _ h1' h2'
      | cons f rest =>
        cases f with
        | true => exact ih _ _ _ _ h1' h2'
        | false => exact ih _ _ _ _ h1' h2'

theorem close_fill_nil_pg_inside (blk : Nat) :
    ∀ (count : Nat) (s : NandState) (page q : Nat),
    page ≤ q → q < page + count →
    ((close_fill blk s [] page count).1).pg blk q = PageState.zeroed := by
  intro count
  induction count with
  | zero => intro s page q h1 h2; omega
  | succ n ih =>
    intro s page q h1 h2
    by_cases hq : q = page
    · subst hq
      show ((close_fill blk (writeWholeZeroOk s blk q) [] (q + 1) n).1).pg blk q = _
      rw [close_fill_pg_outside blk n _ _ _ _ _ (Or.inr (Or.inl (by omega))),
        writeWholeZeroOk_pg, if_pos ⟨rfl, rfl⟩]
    · exact ih _ _ _ (by omega) (by omega)

theorem P6_close (cfg : NandRingConfig) {s : NandState} {lb lp : Nat}
    {o : List Bool} {nb : Nat} {s' : NandState} {o' : List Bool}
    (h : validPagesContiguous cfg s)
    (hok : close_prev_session cfg s lb lp o = Except.ok (nb, s', o')) :
    validPagesContiguous cfg s' ∧ (∀ q, s'.pg nb q = PageState.erased) := by
  unfold close_prev_session at hok
  by_cases hlast : lp = cfg.ppb - 1
  · rw [if_pos hlast] at hok
    exact P6_erase_next cfg h hok
  · rw [if_neg hlast] at hok
    have h1 : validPagesContiguous cfg
        ((close_fill lb s o lp (cfg.ppb - lp)).1) := by
      refine P6_of_block_change cfg h
        (fun x q hx => close_fill_pg_outside lb _ _ _ _ _ _ (Or.inl hx)) ?_
      intro j hj hjb q hq hv
      by_cases hin : lp ≤ q + 1
      · rw [close_fill_pg_inside lb _ _ _ _ _ hin (by omega)] at hv
        cases hv
      · rw [close_fill_pg_outside lb _ _ _ _ _ _ (Or.inr (Or.inl (by omega)))] at hv
        rw [close_fill_pg_outside lb _ _ _ _ _ _ (Or.inr (Or.inl (by omega)))]
        rw [← hjb] at hv ⊢
        exact h j hj q hq hv
    exact P6_erase_next cfg h1 hok

theorem P6_seal (cfg : NandRingConfig) {s : NandState} {blk page id : Nat}
    (h : validPagesContiguous cfg s) (hplt : page < cfg.ppb)
    (hpre : ∀ q, q < page → isValid (s.pg blk q) = true)
    (htail : ∀ q, page ≤ q → q < cfg.ppb → s.pg blk q = PageState.erased) :
    validPagesContiguous cfg (writeSpareOk (writeDataOk s blk page) blk page id) ∧
    (∀ q, q < page + 1 →
      isValid ((writeSpareOk (writeDataOk s blk page) blk page id).pg blk q) = true) ∧
    (∀ q, page + 1 ≤ q → q < cfg.ppb →
      (writeSpareOk (writeDataOk s blk page) blk page id).pg blk q =
        PageState.erased) := by
  have hsealed : (writeSpareOk (writeDataOk s blk page) blk page id).pg blk page =
      PageState.sealed id := by
    rw [writeSpareOk_pg_dw]
    exact writeDataOk_pg_erased _ _ _ (htail page (le_refl page) hplt)
  have hne : ∀ x q, ¬(x = blk ∧ q = page) →
      (writeSpareOk (writeDataOk s blk page) blk page id).pg x q = s.pg x q := by
    intro x q hxq
    rw [writeSpareOk_pg_ne _ _ _ _ _ _ hxq, writeDataOk_pg_ne _ _ _ _ _ hxq]
  refine ⟨?_, ?_, ?_⟩
  · refine P6_of_block_change cfg h
      (fun x q hx => hne x q (by intro hc; exact hx hc.1)) ?_
    intro j _ _ q hq hv
    by_cases hqp : q = page
    · subst hqp
      rw [hsealed]
      rfl
    · by_cases hq1p : q + 1 = page
      · rw [hne blk q (by intro hc; exact hqp hc.2)]
        exact hpre q (by omega)
      · rw [hne blk (q + 1) (by intro hc; exact hq1p hc.2)] at hv
        by_cases hgt : q + 1 < page
        · rw [hne blk q (by intro hc; omega)]
          exact hpre q (by omega)
        · rw [htail (q + 1) (by omega) (by omega)] at hv
          cases hv
  · intro q hq
    by_cases hqp : q = page
    · subst hqp; rw [hsealed]; rfl
    · rw [hne blk q (by intro hc; exact hqp hc.2)]
      exact hpre q (by omega)
  · intro q hq hq2
    rw [hne blk q (by intro hc; omega)]
    exact htail q (by omega) hq2

theorem P6_garbage_at (cfg : NandRingConfig) {s s2 : NandState} {blk page : Nat}
    (h : validPagesContiguous cfg s)
    (hpre : ∀ q, q < page → isValid (s.pg blk q) = true)
    (htail : ∀ q, page ≤ q → q < cfg.ppb → s.pg blk q = PageState.erased)
    (hother : ∀ x q, x ≠ blk → s2.pg x q = s.pg x q)
    (hblk : ∀ q, q ≠ page → s2.pg blk q = s.pg blk q)
    (hg : isValid (s2.pg blk page) = false) :
    validPagesContiguous cfg s2 ∧
    (∀ q, q < page → isValid (s2.pg blk q) = true) := by
  refine ⟨?_, ?_⟩
  · refine P6_of_block_change cfg h hother ?_
    intro j _ _ q hq hv
    by_cases hqp : q = page
    · subst hqp
      rw [hblk (q + 1) (by omega), htail (q + 1) (by omega) (by omega)] at hv
      cases hv
    · by_cases hq1p : q + 1 = page
      · rw [hq1p] at hv
        rw [hv] at hg
        cases hg
      · rw [hblk (q + 1) hq1p] at hv
        by_cases hgt : q + 1 < page
        · rw [hblk q (by omega)]
          exact hpre q (by omega)
        · rw [htail (q + 1) (by omega) (by omega)] at hv
          cases hv
  · intro q hq
    rw [hblk q (by omega)]
    exact hpre q hq

theorem P6_write_loop (cfg : NandRingConfig) :
    ∀ (fuel : Nat) {blk page id : Nat} {s : NandState} {o : List Bool}
      {b' : Nat} {s' : NandState} {o' : List Bool},
    validPagesContiguous cfg s → page < cfg.ppb →
    (∀ q, q < page → isValid (s.pg blk q) = true) →
    (∀ q, page ≤ q → q < cfg.ppb → s.pg blk q = PageState.erased) →
    write_loop fuel cfg blk page id s o = Except.ok (b', s', o') →
    validPagesContiguous cfg s' ∧
    (∀ q, q < page + 1 → isValid (s'.pg b' q) = true) ∧
    (∀ q, page + 1 ≤ q → q < cfg.ppb → s'.pg b' q = PageState.erased) := by
  intro fuel
  induction fuel with
  | zero => intro blk page id s o b' s' o' _ _ _ _ hok; cases hok
  | succ n ih =>
    intro blk page id s o b' s' o' h hplt hpre htail hok
    unfold write_loop at hok
    cases o with
    | nil =>
      cases hok
      exact P6_seal cfg h hplt hpre htail
    | cons f rest =>
      cases f with
      | true =>
        simp only [if_true] at hok
        cases hr : block_data_rescue cfg
            (nandMarkBad (writeDataFail s blk page) blk) blk page rest with
        | error e => rw [hr] at hok; cases hok
        | ok x =>
          obtain ⟨nb, s2, o2⟩ := x
          rw [hr] at hok
          have hga := @P6_garbage_at cfg s
            (nandMarkBad (writeDataFail s blk page) blk) blk page
            h hpre htail
            (fun x q hx => by
              rw [markBad_pg, writeDataFail_pg, if_neg (by intro hc; exact hx hc.1)])
            (fun q hq => by
              rw [markBad_pg, writeDataFail_pg, if_neg (by intro hc; exact hq hc.2)])
            (by rw [markBad_pg, writeDataFail_pg, if_pos ⟨rfl, rfl⟩]; rfl)
          obtain ⟨hres1, hres2, hres3⟩ := P6_rescue cfg hga.1 hga.2
            (by rw [markBad_bad, if_pos rfl]) hr
          exact ih hres1 hplt hres2 (fun q hq _ => hres3 q hq) hok
      | false =>
        simp only [Bool.false_eq_true, if_false] at hok
        cases rest with
        | nil =>
          cases hok
          exact P6_seal cfg h hplt hpre htail
        | cons g rest2 =>
          cases g with
          | true =>
            simp only [if_true] at hok
            cases hr : block_data_rescue cfg
                (nandMarkBad (writeSpareFail (writeDataOk s blk page) blk page)
                  blk) blk page rest2 with
            | error e => rw [hr] at hok; cases hok
            | ok x =>
              obtain ⟨nb, s2, o2⟩ := x
              rw [hr] at hok
              have hga := @P6_garbage_at cfg s
                (nandMarkBad (writeSpareFail (writeDataOk s blk page) blk page)
                  blk) blk page
                h hpre htail
                (fun x q hx => by
                  rw [markBad_pg, writeSpareFail_pg,
                    if_neg (by intro hc; exact hx hc.1),
                    writeDataOk_pg_ne _ _ _ _ _ (by intro hc; exact hx hc.1)])
                (fun q hq => by
                  rw [markBad_pg, writeSpareFail_pg,
                    if_neg (by intro hc; exact hq hc.2),
                    writeDataOk_pg_ne _ _ _ _ _ (by intro hc; exact hq hc.2)])
                (by rw [markBad_pg, writeSpareFail_pg, if_pos ⟨rfl, rfl⟩]; rfl)
              obtain ⟨hres1, hres2, hres3⟩ := P6_rescue cfg hga.1 hga.2
                (by rw [markBad_bad, if_pos rfl]) hr
              exact ih hres1 hplt hres2 (fun q hq _ => hres3 q hq) hok
          | false =>
            simp only [Bool.false_eq_true, if_false] at hok
            cases hok
            exact P6_seal cfg h hplt hpre htail

theorem P6_writePage (cfg : NandRingConfig) {r : NandRing} {s : NandState}
    {o : List Bool} {r' : NandRing} {s' : NandState} {o' : List Bool}
    (h : validPagesContiguous cfg s) (hppb : 0 < cfg.ppb)
    (hglue : mountedTail cfg r s)
    (hok : nandRingWritePage cfg r s o = Except.ok (r', s', o')) :
    validPagesContiguous cfg s' ∧ mountedTail cfg r' s' := by
  unfold nandRingWritePage at hok
  by_cases hm : r.state ≠ RingSt.MOUNTED
  · rw [if_pos hm] at hok; cases hok
  · rw [if_neg hm] at hok
    have hmm : r.state = RingSt.MOUNTED := by
      by_contra hc; exact hm hc
    obtain ⟨hplt, hpre, htail⟩ := hglue hmm
    cases hw : write_loop (o.length + 1) cfg r.cur_blk r.cur_page r.cur_id s o with
    | error e => rw [hw] at hok; cases hok
    | ok y =>
      obtain ⟨blk, s1, o1⟩ := y
      rw [hw] at hok
      dsimp only at hok
      obtain ⟨hl1, hl2, hl3⟩ :=
        P6_write_loop cfg (o.length + 1) h hplt hpre htail hw
      by_cases hroll : r.cur_page + 1 = cfg.ppb
      · rw [if_pos hroll] at hok
        cases he : erase_next cfg blk s1 o1 with
        | error e => rw [he] at hok; cases hok
        | ok z =>
          obtain ⟨nb, s2, o2⟩ := z
          rw [he] at hok
          cases hok
          obtain ⟨hP, herased⟩ := P6_erase_next cfg hl1 he
          exact ⟨hP, fun _ => ⟨hppb,
            fun q hq => absurd hq (Nat.not_lt_zero q),
            fun q _ _ => herased q⟩⟩
      · rw [if_neg hroll] at hok
        cases hok
        refine ⟨hl1, fun _ => ⟨?_, fun q hq => hl2 q hq,
          fun q hq hq2 => hl3 q hq hq2⟩⟩
        show r.cur_page + 1 < cfg.ppb
        omega

theorem P6_mount (cfg : NandRingConfig) {r : NandRing} {s : NandState}
    {o : List Bool} {flag : Bool} {r' : NandRing} {s' : NandState}
    {o' : List Bool}
    (h : validPagesContiguous cfg s) (hppb : 0 < cfg.ppb)
    (hok : nandRingMount cfg r s o = Except.ok (flag, r', s', o')) :
    validPagesContiguous cfg s' ∧ mountedTail cfg r' s' := by
  unfold nandRingMount at hok
  by_cases hm : r.state ≠ RingSt.IDLE
  · rw [if_pos hm] at hok; cases hok
  · rw [if_neg hm] at hok
    have hmm : r.state = RingSt.IDLE := by
      by_contra hc; exact hm hc
    by_cases hfew : get_total_good cfg s < MIN_RING_SIZE / 2
    · rw [if_pos hfew] at hok
      cases hok
      refine ⟨h, fun hmt => ?_⟩
      rw [hmm] at hmt
      cases hmt
    · rw [if_neg hfew] at hok
      cases hlwb : last_written_block cfg s with
      | none =>
        rw [hlwb] at hok
        dsimp only [mkfs] at hok
        cases hfg : first_good cfg s with
        | none => rw [hfg] at hok; cases hok
        | some cur =>
          rw [hfg] at hok
          dsimp only at hok
          cases he : erase_next cfg cur s o with
          | error e => rw [he] at hok; cases hok
          | ok z =>
            obtain ⟨blk, s1, o1⟩ := z
            rw [he] at hok
            cases hok
            obtain ⟨hP, herased⟩ := P6_erase_next cfg h he
            exact ⟨hP, fun _ => ⟨hppb,
              fun q hq => absurd hq (Nat.not_lt_zero q),
              fun q _ _ => herased q⟩⟩
      | some lb =>
        rw [hlwb] at hok
        dsimp only at hok
        cases hlwp : last_written_page cfg s lb with
        | error e => rw [hlwp] at hok; cases hok
        | ok lp =>
          rw [hlwp] at hok
          dsimp only at hok
          cases hc : close_prev_session cfg s lb lp o with
          | error e => rw [hc] at hok; cases hok
          | ok z =>
            obtain ⟨blk, s1, o1⟩ := z
            rw [hc] at hok
            cases hok
            obtain ⟨hP, herased⟩ := P6_close cfg h hc
            exact ⟨hP, fun _ => ⟨hppb,
              fun q hq => absurd hq (Nat.not_lt_zero q),
              fun q _ _ => herased q⟩⟩

theorem P6_runOp (cfg : NandRingConfig) {op : RingOp} {x x' : NandRing × NandState}
    (hppb : 0 < cfg.ppb)
    (h : validPagesContiguous cfg x.2 ∧ mountedTail cfg x.1 x.2)
    (hok : runOp cfg op x = Except.ok x') :
    validPagesContiguous cfg x'.2 ∧ mountedTail cfg x'.1 x'.2 := by
  obtain ⟨r, s⟩ := x
  cases op with
  | opStart nb =>
    simp only [runOp] at hok
    unfold nandRingStart at hok
    by_cases hc : cfg.start_blk + cfg.len ≤ nb ∧ MIN_RING_SIZE ≤ cfg.len
    · rw [if_pos hc] at hok
      cases hok
      exact ⟨h.1, fun hmt => by cases hmt⟩
    · rw [if_neg hc] at hok; cases hok
  | opMount o =>
    simp only [runOp] at hok
    cases hmo : nandRingMount cfg r s o with
    | error e => rw [hmo] at hok; cases hok
    | ok z =>
      obtain ⟨flag, r1, s1, o1⟩ := z
      rw [hmo] at hok
      cases hok
      exact P6_mount cfg h.1 hppb hmo
  | opWrite o =>
    simp only [runOp] at hok
    cases hwo : nandRingWritePage cfg r s o with
    | error e => rw [hwo] at hok; cases hok
    | ok z =>
      obtain ⟨r1, s1, o1⟩ := z
      rw [hwo] at hok
      cases hok
      exact P6_writePage cfg h.1 hppb h.2 hwo
  | opUmount =>
    simp only [runOp, nandRingUmount] at hok
    cases hok
    exact ⟨h.1, fun hmt => by cases hmt⟩
  | opStop =>
    simp only [runOp] at hok
    unfold nandRingStop at hok
    by_cases hc : r.state ≠ RingSt.IDLE
    · rw [if_pos hc] at hok; cases hok
    · rw [if_neg hc] at hok
      cases hok
      exact ⟨h.1, fun hmt => by cases hmt⟩

theorem P6_runOps (cfg : NandRingConfig) :
    ∀ (ops : List RingOp) (x x' : NandRing × NandState),
    0 < cfg.ppb →
    validPagesContiguous cfg x.2 ∧ mountedTail cfg x.1 x.2 →
    runOps cfg ops x = Except.ok x' →
    validPagesContiguous cfg x'.2 ∧ mountedTail cfg x'.1 x'.2 := by
  intro ops
  induction ops with
  | nil =>
    intro x x' _ h hok
    cases hok
    exact h
  | cons op rest ih =>
    intro x x' hppb h hok
    simp only [runOps] at hok
    cases ho : runOp cfg op x with
    | error e => rw [ho] at hok; cases hok
    | ok x1 =>
      rw [ho] at hok
      exact ih x1 x' hppb (P6_runOp cfg hppb h ho) hok

/-- Claim C6: (1) after any sequence of public operations — mounts (which run
the session closure), appends, and lifecycle calls — with arbitrary injected
program/erase/move failures, starting from any non-mounted ring over a NAND
whose blocks all satisfy it, every block of the ring keeps its CRC-valid
pages as a contiguous prefix `[0, k)`; (2) session closure explicitly
zero-stamps every page after the last written one: after a failure-free
`close_prev_session`, every page of the closed block strictly beyond
`last_page` reads back `zeroed` (unless the block was itself re-erased as
the next current block). -/
theorem c6_prefix_validity :
    (∀ (cfg : NandRingConfig) (ops : List RingOp) (r0 : NandRing)
       (s0 : NandState) (r : NandRing) (s : NandState),
      0 < cfg.ppb → r0.state ≠ RingSt.MOUNTED →
      validPagesContiguous cfg s0 →
      runOps cfg ops (r0, s0) = Except.ok (r, s) →
      validPagesContiguous cfg s) ∧
    (∀ (cfg : NandRingConfig) (s : NandState) (lb lp nb : Nat)
       (s' : NandState) (o' : List Bool),
      close_prev_session cfg s lb lp [] = Except.ok (nb, s', o') →
      ∀ q, lp < q → q < cfg.ppb → lb ≠ nb →
        s'.pg lb q = PageState.zeroed) := by
  constructor
  · intro cfg ops r0 s0 r s hppb hnm h0 hok
    exact (P6_runOps cfg ops (r0, s0) (r, s) hppb
      ⟨h0, fun hmt => absurd hmt hnm⟩ hok).1
  · intro cfg s lb lp nb s' o' hok q hq1 hq2 hlbnb
    unfold close_prev_session at hok
    by_cases hlast : lp = cfg.ppb - 1
    · omega
    · rw [if_neg hlast] at hok
      obtain ⟨_, he2, _, _⟩ := erase_next_ok_char cfg lb _ _ nb s' o' hok
      rw [he2 lb q hlbnb]
      exact close_fill_nil_pg_inside lb (cfg.ppb - lp) s lp q (by omega) (by omega)

/-- Witness for C6 at a concrete input: mount a fresh all-good 64-block ring
and append one page; the resulting NAND still has contiguous valid
prefixes in every block. -/
theorem c6_prefix_validity_w :
    validPagesContiguous cfg0
      (writeSpareOk (writeDataOk (eraseBlockOk freshNand 1) 1 0) 1 0 1) :=
  c6_prefix_validity.1 cfg0 [RingOp.opMount [], RingOp.opWrite []] r0 freshNand
    { state := RingSt.MOUNTED, cur_blk := 1, cur_page := 1, cur_id := 2,
      utc_correction := r0.utc_correction }
    (writeSpareOk (writeDataOk (eraseBlockOk freshNand 1) 1 0) 1 0 1)
    (by decide) (by decide) (by decide) rfl

theorem ringNext_inRing (cfg : NandRingConfig) {b : Nat} (hb : inRing cfg b) :
    inRing cfg (ringNext cfg b) := by
  obtain ⟨h1, h2⟩ := hb
  unfold ringNext
  by_cases hc : b + 1 = cfg.start_blk + cfg.len
  · rw [if_pos hc]
    exact ⟨le_refl _, by omega⟩
  · rw [if_neg hc]
    exact ⟨by omega, by omega⟩

theorem ringNext_ne (cfg : NandRingConfig) {b : Nat} (hlen : 2 ≤ cfg.len)
    (hb : inRing cfg b) : ringNext cfg b ≠ b := by
  obtain ⟨h1, h2⟩ := hb
  unfold ringNext
  by_cases hc : b + 1 = cfg.start_blk + cfg.len
  · rw [if_pos hc]; omega
  · rw [if_neg hc]; omega

theorem ringPrev_ringNext (cfg : NandRingConfig) {b : Nat} (hlen : 2 ≤ cfg.len)
    (hb : inRing cfg b) : ringPrev cfg (ringNext cfg b) = b := by
  obtain ⟨h1, h2⟩ := hb
  unfold ringNext ringPrev
  by_cases hc : b + 1 = cfg.start_blk + cfg.len
  · rw [if_pos hc, if_pos rfl]; omega
  · rw [if_neg hc, if_neg (by omega)]; omega

theorem ringDist_zero (cfg : NandRingConfig) {c b : Nat} (hc : inRing cfg c)
    (hb : inRing cfg b) (h : ringDist cfg c b = 0) : b = c := by
  obtain ⟨hc1, hc2⟩ := hc
  obtain ⟨hb1, hb2⟩ := hb
  unfold ringDist at h
  by_cases hle : b ≤ c
  · rw [if_pos hle] at h; omega
  · rw [if_neg hle] at h; omega

theorem ringDist_prev (cfg : NandRingConfig) {c : Nat} (hlen : 2 ≤ cfg.len)
    (hc : inRing cfg c) : ringDist cfg c (ringPrev cfg c) = 1 := by
  obtain ⟨hc1, hc2⟩ := hc
  unfold ringPrev ringDist
  by_cases hs : c = cfg.start_blk
  · rw [if_pos hs, if_neg (by omega)]; omega
  · rw [if_neg hs, if_pos (by omega)]; omega

theorem ringDist_one (cfg : NandRingConfig) {c b : Nat} (hc : inRing cfg c)
    (hb : inRing cfg b) (h : ringDist cfg c b = 1) : b = ringPrev cfg c := by
  obtain ⟨hc1, hc2⟩ := hc
  obtain ⟨hb1, hb2⟩ := hb
  unfold ringDist at h
  unfold ringPrev
  by_cases hle : b ≤ c
  · rw [if_pos hle] at h
    rw [if_neg (by omega)]
    omega
  · rw [if_neg hle] at h
    rw [if_pos (by omega)]
    omega

theorem ringDist_next (cfg : NandRingConfig) {c b : Nat} (hc : inRing cfg c)
    (hb : inRing cfg b) (hbne : b ≠ ringNext cfg c) :
    ringDist cfg (ringNext cfg c) b = ringDist cfg c b + 1 := by
  obtain ⟨hc1, hc2⟩ := hc
  obtain ⟨hb1, hb2⟩ := hb
  unfold ringNext at hbne ⊢
  unfold ringDist
  by_cases hw : c + 1 = cfg.start_blk + cfg.len
  · rw [if_pos hw] at hbne ⊢
    rw [if_neg (by omega), if_pos (by omega)]
    omega
  · rw [if_neg hw] at hbne ⊢
    by_cases hle : b ≤ c
    · rw [if_pos (by omega), if_pos hle]
      omega
    · rw [if_neg (by omega), if_neg hle]
      omega

theorem total_good_allgood (cfg : NandRingConfig) {s : NandState}
    (hg : ∀ b, s.bad b = false) : get_total_good cfg s = cfg.len := by
  unfold get_total_good
  have : (fun i => ! s.bad (cfg.start_blk + i)) = fun _ => true := by
    funext i; rw [hg]; rfl
  rw [this]
  simp

theorem next_good_allgood (cfg : NandRingConfig) {s : NandState}
    (hg : ∀ b, s.bad b = false) (hlen : 0 < cfg.len) (b : Nat) :
    next_good cfg s b = some (ringNext cfg b) :=
  next_good_step cfg s b hlen (hg _)

theorem first_good_allgood (cfg : NandRingConfig) {s : NandState}
    (hg : ∀ b, s.bad b = false) (hlen : 0 < cfg.len) :
    first_good cfg s = some cfg.start_blk := by
  unfold first_good
  rw [next_good_allgood cfg hg hlen]
  unfold ringNext
  rw [if_pos (by omega)]

theorem foldl_scanStep_keep (g : Nat → Nat) (M x : Nat) :
    ∀ (L : List Nat), (∀ y ∈ L, g y ≤ M) → (∀ y ∈ L, g y = M → y = x) →
    L.foldl (scanStep g) (some x, M) = (some x, M) := by
  intro L
  induction L with
  | nil => intro _ _; rfl
  | cons a L ih =>
    intro hub huniq
    show L.foldl (scanStep g) (scanStep g (some x, M) a) = _
    have hstep : scanStep g (some x, M) a = (some x, M) := by
      unfold scanStep
      by_cases hle : M ≤ g a
      · rw [if_pos hle]
        have hM : g a = M := le_antisymm (hub a (by simp)) hle
        rw [hM, huniq a (by simp) hM]
      · rw [if_neg hle]
    rw [hstep]
    exact ih (fun y hy => hub y (by simp [hy])) (fun y hy => huniq y (by simp [hy]))

theorem foldl_scanStep_sel (g : Nat → Nat) (M x : Nat) :
    ∀ (L : List Nat) (acc : Option Nat × Nat), x ∈ L → g x = M →
    (∀ y ∈ L, g y ≤ M) → (∀ y ∈ L, g y = M → y = x) → acc.2 ≤ M →
    L.foldl (scanStep g) acc = (some x, M) := by
  intro L
  induction L with
  | nil => intro acc hx; cases hx
  | cons a L ih =>
    intro acc hx hgx hub huniq hacc
    show L.foldl (scanStep g) (scanStep g acc a) = _
    by_cases hax : a = x
    · subst hax
      have hstep : scanStep g acc a = (some a, M) := by
        unfold scanStep
        rw [if_pos (by rw [hgx]; exact hacc), hgx]
      rw [hstep]
      exact foldl_scanStep_keep g M a L (fun y hy => hub y (by simp [hy]))
        (fun y hy => huniq y (by simp [hy]))
    · have hxL : x ∈ L := by
        cases hx with
        | head => exact absurd rfl hax
        | tail _ h => exact h
      have hacc1 : (scanStep g acc a).2 ≤ M := by
        unfold scanStep
        by_cases hle : acc.2 ≤ g a
        · rw [if_pos hle]; exact hub a (by simp)
        · rw [if_neg hle]; exact hacc
      exact ih (scanStep g acc a) hxL hgx (fun y hy => hub y (by simp [hy]))
        (fun y hy => huniq y (by simp [hy])) hacc1

theorem foldl_scanStep_low (g : Nat → Nat) :
    ∀ (L : List Nat) (acc : Option Nat × Nat), (∀ y ∈ L, g y < acc.2) →
    L.foldl (scanStep g) acc = acc := by
  intro L
  induction L with
  | nil => intro _ _; rfl
  | cons a L ih =>
    intro acc hlow
    show L.foldl (scanStep g) (scanStep g acc a) = _
    have hstep : scanStep g acc a = acc := by
      unfold scanStep
      rw [if_neg (by have := hlow a (by simp); omega)]
    rw [hstep]
    exact ih acc (fun y hy => hlow y (by simp [hy]))

theorem lwb_go_allgood (cfg : NandRingConfig) (s : NandState)
    (hg : ∀ b, s.bad b = false) :
    ∀ (d j : Nat) (acc : Option Nat × Nat), j + d = cfg.len →
    last_written_block_go cfg s cfg.start_blk d (cfg.start_blk + j) acc =
      (((List.range d).map (fun i => cfg.start_blk + (j + i))).foldl
        (scanStep (fun x => read_page_id s x 0)) acc).1 := by
  intro d
  induction d with
  | zero => intro j acc _; rfl
  | succ n ih =>
    intro j acc hlen
    show (match next_good cfg s (cfg.start_blk + j) with
      | none => (scanStep (fun x => read_page_id s x 0) acc (cfg.start_blk + j)).1
      | some b1 =>
        if cfg.start_blk < b1 then
          last_written_block_go cfg s cfg.start_blk n b1
            (scanStep (fun x => read_page_id s x 0) acc (cfg.start_blk + j))
        else (scanStep (fun x => read_page_id s x 0) acc (cfg.start_blk + j)).1) = _
    rw [next_good_allgood cfg hg (by omega)]
    unfold ringNext
    by_cases hwrap : cfg.start_blk + j + 1 = cfg.start_blk + cfg.len
    · rw [if_pos hwrap]
      dsimp only
      rw [if_neg (by omega)]
      have hn0 : n = 0 := by omega
      subst hn0
      have h1 : List.range 1 = [0] := rfl
      simp only [h1, List.map_cons, List.map_nil, List.foldl_cons,
        List.foldl_nil, Nat.add_zero]
    · rw [if_neg hwrap]
      dsimp only
      rw [if_pos (by omega)]
      have hrec := ih (j + 1)
        (scanStep (fun x => read_page_id s x 0) acc (cfg.start_blk + j)) (by omega)
      have harg : cfg.start_blk + j + 1 = cfg.start_blk + (j + 1) := by omega
      rw [harg, hrec]
      have hmap : (List.range (n + 1)).map (fun i => cfg.start_blk + (j + i)) =
          (cfg.start_blk + (j + 0)) ::
            (List.range n).map (fun i => cfg.start_blk + ((j + 1) + i)) := by
        rw [List.range_succ_eq_map]
        simp only [List.map_cons, List.map_map]
        congr 1
        apply List.map_congr_left
        intro i _
        simp only [Function.comp]
        omega
      rw [hmap]
      simp only [List.foldl_cons, Nat.add_zero]

theorem last_written_block_allgood (cfg : NandRingConfig) (s : NandState)
    (hg : ∀ b, s.bad b = false) (hlen : 0 < cfg.len) :
    last_written_block cfg s =
      (((List.range cfg.len).map (fun i => cfg.start_blk + i)).foldl
        (scanStep (fun x => read_page_id s x 0)) (none, PAGE_ID_FIRST)).1 := by
  unfold last_written_block
  rw [first_good_allgood cfg hg hlen]
  dsimp only
  have h := lwb_go_allgood cfg s hg cfg.len 0 (none, PAGE_ID_FIRST) (by omega)
  rw [Nat.add_zero] at h
  rw [h]
  congr 2
  apply List.map_congr_left
  intro i _
  omega

theorem read_page_id_sealed {s : NandState} {b p i : Nat}
    (h : s.pg b p = PageState.sealed i) : read_page_id s b p = i := by
  unfold read_page_id
  rw [h]

theorem read_page_id_erased {s : NandState} {b p : Nat}
    (h : s.pg b p = PageState.erased) : read_page_id s b p = 0 := by
  unfold read_page_id
  rw [h]
  rfl

theorem last_written_page_char (cfg : NandRingConfig) (s : NandState)
    {blk mt baset : Nat} (hmt : 0 < mt) (hmtle : mt ≤ cfg.ppb)
    (hbase : 0 < baset) (hrun : sealedRun cfg s blk mt baset) :
    last_written_page cfg s blk = Except.ok (mt - 1) := by
  unfold last_written_page
  rw [foldl_scanStep_sel (fun p => read_page_id s blk p) (baset + (mt - 1))
    (mt - 1) (List.range cfg.ppb) (none, PAGE_ID_FIRST)
    (List.mem_range.mpr (by omega))
    (read_page_id_sealed (hrun.1 (mt - 1) (by omega)))
    ?ub ?uniq (by
      show PAGE_ID_FIRST ≤ baset + (mt - 1)
      unfold PAGE_ID_FIRST
      omega)]
  case ub =>
    intro p hp
    dsimp only
    by_cases hpm : p < mt
    · rw [read_page_id_sealed (hrun.1 p hpm)]
      omega
    · rw [read_page_id_erased (hrun.2 p (by omega) (List.mem_range.mp hp))]
      omega
  case uniq =>
    intro p hp hM
    dsimp only at hM
    by_cases hpm : p < mt
    · rw [read_page_id_sealed (hrun.1 p hpm)] at hM
      omega
    · rw [read_page_id_erased (hrun.2 p (by omega) (List.mem_range.mp hp))] at hM
      omega

theorem foldl_max_le_general {α : Type} (step : Nat → α → Nat) (K : Nat) :
    ∀ (L : List α) (a : Nat), a ≤ K → (∀ x ∈ L, ∀ m, m ≤ K → step m x ≤ K) →
    L.foldl step a ≤ K := by
  intro L
  induction L with
  | nil => intro a ha _; exact ha
  | cons x L ih =>
    intro a ha hstep
    exact ih (step a x) (hstep x (by simp) a ha)
      (fun y hy m hm => hstep y (by simp [hy]) m hm)

theorem foldl_ge_init {α : Type} (step : Nat → α → Nat)
    (hmono : ∀ m x, m ≤ step m x) :
    ∀ (L : List α) (a : Nat), a ≤ L.foldl step a := by
  intro L
  induction L with
  | nil => intro a; exact le_refl a
  | cons x L ih =>
    intro a
    exact le_trans (hmono a x) (ih (step a x))

theorem foldl_ge_of_mem {α : Type} (step : Nat → α → Nat)
    (hmono : ∀ m x, m ≤ step m x) (K : Nat) (x : α)
    (hK : ∀ m, K ≤ step m x) :
    ∀ (L : List α) (a : Nat), x ∈ L → K ≤ L.foldl step a := by
  intro L
  induction L with
  | nil => intro a hx; cases hx
  | cons y L ih =>
    intro a hx
    cases hx with
    | head => exact le_trans (hK a) (foldl_ge_init step hmono L (step a x))
    | tail _ h => exact ih (step a y) h

theorem maxDurableId_le (cfg : NandRingConfig) (s : NandState) (K : Nat)
    (hub : ∀ j p, j < cfg.len → p < cfg.ppb →
      read_page_id s (cfg.start_blk + j) p ≤ K) :
    maxDurableId cfg s ≤ K := by
  unfold maxDurableId
  apply foldl_max_le_general _ K _ 0 (by omega)
  intro i hi m hm
  apply foldl_max_le_general _ K _ m hm
  intro p hp m2 hm2
  exact max_le hm2 (hub i p (List.mem_range.mp hi) (List.mem_range.mp hp))

theorem le_maxDurableId (cfg : NandRingConfig) (s : NandState) {j p : Nat}
    (hj : j < cfg.len) (hp : p < cfg.ppb) :
    read_page_id s (cfg.start_blk + j) p ≤ maxDurableId cfg s := by
  unfold maxDurableId
  apply foldl_ge_of_mem _ ?mono _ j ?hK _ 0 (List.mem_range.mpr hj)
  case mono =>
    intro m i
    exact foldl_ge_init _ (fun m2 q => le_max_left m2 _) _ m
  case hK =>
    intro m
    exact foldl_ge_of_mem
      (fun m2 q => max m2 (read_page_id s (cfg.start_blk + j) q))
      (fun m2 q => le_max_left m2 _) (read_page_id s (cfg.start_blk + j) p) p
      (fun m2 => le_max_right m2 _) (List.range cfg.ppb) m
      (List.mem_range.mpr hp)

theorem close_fill_nil_snd (blk : Nat) :
    ∀ (count : Nat) (s : NandState) (page : Nat),
    (close_fill blk s [] page count).2 = [] := by
  intro count
  induction count with
  | zero => intro s page; rfl
  | succ n ih => intro s page; exact ih _ _

theorem close_fill_nil_bad (blk : Nat) :
    ∀ (count : Nat) (s : NandState) (page : Nat),
    ((close_fill blk s [] page count).1).bad = s.bad := by
  intro count
  induction count with
  | zero => intro s page; rfl
  | succ n ih => intro s page; exact ih _ _

theorem seal_pg_self (s : NandState) (b p id : Nat)
    (h : s.pg b p = PageState.erased) :
    (writeSpareOk (writeDataOk s b p) b p id).pg b p = PageState.sealed id :=
  writeSpareOk_pg_dw _ _ _ _ (writeDataOk_pg_erased s b p h)

theorem seal_pg_ne (s : NandState) (b p id x q : Nat) (h : ¬(x = b ∧ q = p)) :
    (writeSpareOk (writeDataOk s b p) b p id).pg x q = s.pg x q := by
  rw [writeSpareOk_pg_ne _ _ _ _ _ _ h, writeDataOk_pg_ne _ _ _ _ _ h]

theorem seal_bad (s : NandState) (b p id : Nat) :
    (writeSpareOk (writeDataOk s b p) b p id).bad = s.bad := by
  rw [writeSpareOk_bad, writeDataOk_bad]

theorem sealedRun_congr {cfg : NandRingConfig} {s t : NandState} {b m base : Nat}
    (h : ∀ q, q < cfg.ppb → t.pg b q = s.pg b q) (hm : m ≤ cfg.ppb)
    (hr : sealedRun cfg s b m base) : sealedRun cfg t b m base :=
  ⟨fun p hp => (h p (lt_of_lt_of_le hp hm)).trans (hr.1 p hp),
   fun p h1 h2 => (h p h2).trans (hr.2 p h1 h2)⟩

theorem sealedRun_unique {cfg : NandRingConfig} {s : NandState}
    {b m1 base1 m2 base2 : Nat}
    (h1 : sealedRun cfg s b m1 base1) (h2 : sealedRun cfg s b m2 base2)
    (hm1 : m1 ≤ cfg.ppb) (hm2 : m2 ≤ cfg.ppb)
    (hp1 : 0 < m1) (hp2 : 0 < m2) : m1 = m2 ∧ base1 = base2 := by
  have hmm : m1 = m2 := by
    rcases Nat.lt_trichotomy m1 m2 with hlt | heq | hgt
    · have ha := h2.1 m1 hlt
      have hb := h1.2 m1 (le_refl m1) (lt_of_lt_of_le hlt hm2)
      rw [ha] at hb
      cases hb
    · exact heq
    · have ha := h1.1 m2 hgt
      have hb := h2.2 m2 (le_refl m2) (lt_of_lt_of_le hgt hm1)
      rw [ha] at hb
      cases hb
  refine ⟨hmm, ?_⟩
  have ha := h1.1 0 hp1
  have hb := h2.1 0 hp2
  rw [ha] at hb
  cases hb
  omega

theorem mount_fresh_char (cfg : NandRingConfig) (r : NandRing)
    (hlen : MIN_RING_SIZE ≤ cfg.len) (hidle : r.state = RingSt.IDLE) :
    nandRingMount cfg r freshNand [] =
      Except.ok (true,
        { r with state := RingSt.MOUNTED,
                 cur_blk := ringNext cfg cfg.start_blk, cur_page := 0,
                 cur_id := PAGE_ID_FIRST },
        eraseBlockOk freshNand (ringNext cfg cfg.start_blk), []) := by
  have hg : ∀ b, freshNand.bad b = false := fun _ => rfl
  have hlen0 : 0 < cfg.len := by
    unfold MIN_RING_SIZE at hlen
    omega
  unfold nandRingMount
  rw [if_neg (by simp [hidle])]
  rw [if_neg (by
    rw [total_good_allgood cfg hg]
    unfold MIN_RING_SIZE at hlen ⊢
    omega)]
  have hlwb : last_written_block cfg freshNand = none := by
    rw [last_written_block_allgood cfg freshNand hg hlen0]
    rw [foldl_scanStep_low _ _ _ (by
      intro y hy
      show read_page_id freshNand y 0 < ((none, PAGE_ID_FIRST) : Option Nat × Nat).2
      rw [read_page_id_erased rfl]
      decide)]
  rw [hlwb]
  dsimp only
  have hmk : mkfs cfg freshNand [] =
      Except.ok (ringNext cfg cfg.start_blk,
        eraseBlockOk freshNand (ringNext cfg cfg.start_blk), []) := by
    unfold mkfs
    rw [first_good_allgood cfg hg hlen0]
    dsimp only
    exact erase_next_nil cfg (next_good_allgood cfg hg hlen0 cfg.start_blk)
  rw [hmk]

theorem winv_fresh (cfg : NandRingConfig) (r : NandRing)
    (hlen : MIN_RING_SIZE ≤ cfg.len) (hppb : 0 < cfg.ppb) :
    WInv cfg
      { r with state := RingSt.MOUNTED,
               cur_blk := ringNext cfg cfg.start_blk, cur_page := 0,
               cur_id := PAGE_ID_FIRST }
      (eraseBlockOk freshNand (ringNext cfg cfg.start_blk)) := by
  have hlen0 : 0 < cfg.len := by
    unfold MIN_RING_SIZE at hlen
    omega
  have hall : ∀ x q,
      (eraseBlockOk freshNand (ringNext cfg cfg.start_blk)).pg x q =
        PageState.erased := by
    intro x q
    rw [eraseBlockOk_pg]
    by_cases h : x = ringNext cfg cfg.start_blk
    · rw [if_pos h]
    · rw [if_neg h]
      rfl
  refine ⟨rfl, fun b => rfl, ?_, hppb, Nat.one_pos, ?_, ?_, ?_, ?_⟩
  · exact ringNext_inRing cfg ⟨le_refl _, by omega⟩
  · exact ⟨fun p hp => absurd hp (Nat.not_lt_zero p), fun p _ _ => hall _ _⟩
  · intro b _ _
    exact ⟨0, 0, Nat.zero_le _,
      ⟨fun p hp => absurd hp (Nat.not_lt_zero p), fun p _ _ => hall _ _⟩,
      fun h0 => absurd h0 (lt_irrefl 0)⟩
  · intro b1 b2 m1 base1 m2 base2 _ _ _ _ hr1 _ hp1 _ _ _ _
    have := hr1.1 0 hp1
    rw [hall] at this
    cases this
  · intro _ h1
    exact absurd rfl h1

theorem writePage_nil (cfg : NandRingConfig) (r : NandRing) (s : NandState)
    (hm : r.state = RingSt.MOUNTED) :
    nandRingWritePage cfg r s [] =
      if r.cur_page + 1 = cfg.ppb then
        match erase_next cfg r.cur_blk
            (writeSpareOk (writeDataOk s r.cur_blk r.cur_page) r.cur_blk
              r.cur_page r.cur_id) [] with
        | Except.error e => Except.error e
        | Except.ok (nb, s2, o2) =>
          Except.ok ({ r with cur_blk := nb, cur_page := 0,
                              cur_id := r.cur_id + 1 }, s2, o2)
      else
        Except.ok ({ r with cur_blk := r.cur_blk, cur_page := r.cur_page + 1,
                            cur_id := r.cur_id + 1 },
          writeSpareOk (writeDataOk s r.cur_blk r.cur_page) r.cur_blk
            r.cur_page r.cur_id, []) := by
  unfold nandRingWritePage
  rw [if_neg (by simp [hm])]
  rfl

theorem winv_step (cfg : NandRingConfig) {r r' : NandRing} {s s' : NandState}
    {o' : List Bool} (hlen : 2 ≤ cfg.len) (hW : WInv cfg r s)
    (hok : nandRingWritePage cfg r s [] = Except.ok (r', s', o')) :
    WInv cfg r' s' := by
  have hlen0 : 0 < cfg.len := by omega
  have hplt := hW.plt
  have hidgt := hW.idgt
  have hppb0 : 0 < cfg.ppb := by omega
  rw [writePage_nil cfg r s hW.mounted] at hok
  have hcur_er : s.pg r.cur_blk r.cur_page = PageState.erased :=
    hW.cur.2 r.cur_page (le_refl _) hW.plt
  have hs1self : (writeSpareOk (writeDataOk s r.cur_blk r.cur_page) r.cur_blk
      r.cur_page r.cur_id).pg r.cur_blk r.cur_page = PageState.sealed r.cur_id :=
    seal_pg_self s r.cur_blk r.cur_page r.cur_id hcur_er
  have hs1good : ∀ b, (writeSpareOk (writeDataOk s r.cur_blk r.cur_page)
      r.cur_blk r.cur_page r.cur_id).bad b = false := by
    intro b
    rw [congrFun (seal_bad s r.cur_blk r.cur_page r.cur_id) b]
    exact hW.allGood b
  by_cases hroll : r.cur_page + 1 = cfg.ppb
  · rw [if_pos hroll] at hok
    have hen := erase_next_nil cfg
      (next_good_allgood cfg hs1good hlen0 r.cur_blk)
    rw [hen] at hok
    dsimp only at hok
    simp only [Except.ok.injEq, Prod.mk.injEq] at hok
    obtain ⟨h1, h2, h3⟩ := hok
    subst h1
    subst h2
    subst h3
    have hnbin := ringNext_inRing cfg hW.inr
    have hnbne := ringNext_ne cfg hlen hW.inr
    have hpv := ringPrev_ringNext cfg hlen hW.inr
    have hs2other : ∀ x q, x ≠ ringNext cfg r.cur_blk →
        (eraseBlockOk (writeSpareOk (writeDataOk s r.cur_blk r.cur_page)
          r.cur_blk r.cur_page r.cur_id) (ringNext cfg r.cur_blk)).pg x q =
        (writeSpareOk (writeDataOk s r.cur_blk r.cur_page) r.cur_blk
          r.cur_page r.cur_id).pg x q := by
      intro x q hx
      rw [eraseBlockOk_pg, if_neg hx]
    have hs2nb : ∀ q,
        (eraseBlockOk (writeSpareOk (writeDataOk s r.cur_blk r.cur_page)
          r.cur_blk r.cur_page r.cur_id) (ringNext cfg r.cur_blk)).pg
          (ringNext cfg r.cur_blk) q = PageState.erased := by
      intro q
      rw [eraseBlockOk_pg, if_pos rfl]
    have hcurrun : sealedRun cfg
        (eraseBlockOk (writeSpareOk (writeDataOk s r.cur_blk r.cur_page)
          r.cur_blk r.cur_page r.cur_id) (ringNext cfg r.cur_blk))
        r.cur_blk cfg.ppb (r.cur_id + 1 - cfg.ppb) := by
      constructor
      · intro p hp
        rw [hs2other _ _ (Ne.symm hnbne)]
        by_cases hpc : p = r.cur_page
        · subst hpc
          rw [hs1self]
          congr 1
          omega
        · rw [seal_pg_ne s _ _ _ _ _ (fun hc => hpc hc.2)]
          rw [hW.cur.1 p (by omega)]
          congr 1
          omega
      · intro p h1 h2
        exact absurd h2 (Nat.not_lt.mpr h1)
    refine ⟨hW.mounted, ?_, hnbin, ?_, ?_, ?_, ?_, ?_, ?_⟩
    · intro b
      exact hs1good b
    · show 0 < cfg.ppb
      exact hppb0
    · show 0 < r.cur_id + 1
      omega
    · exact ⟨fun p hp => absurd hp (Nat.not_lt_zero p), fun p _ _ => hs2nb p⟩
    · intro b hb hbne
      by_cases hbc : b = r.cur_blk
      · subst hbc
        refine ⟨cfg.ppb, r.cur_id + 1 - cfg.ppb, le_refl _, hcurrun, ?_⟩
        intro _
        refine ⟨by omega, ?_⟩
        show r.cur_id + 1 - cfg.ppb + cfg.ppb ≤ r.cur_id + 1 - 0
        omega
      · obtain ⟨m, base, hm, hrun, hbd⟩ := hW.rest b hb hbc
        refine ⟨m, base, hm, ?_, ?_⟩
        · exact sealedRun_congr (fun q hq =>
            (hs2other b q hbne).trans
              (seal_pg_ne s _ _ _ _ _ (fun hc => hbc hc.1))) hm hrun
        · intro h0
          obtain ⟨hx, hy⟩ := hbd h0
          refine ⟨hx, ?_⟩
          show base + m ≤ r.cur_id + 1 - 0
          omega
    · intro b1 b2 m1 base1 m2 base2 h1in h2in h1ne h2ne hr1 hm1 hp1 hr2 hm2 hp2
        hdist
      have h1ne' : b1 ≠ ringNext cfg r.cur_blk := h1ne
      have h2ne' : b2 ≠ ringNext cfg r.cur_blk := h2ne
      have hdist' : ringDist cfg (ringNext cfg r.cur_blk) b1 <
          ringDist cfg (ringNext cfg r.cur_blk) b2 := hdist
      have hd2 : b2 ≠ r.cur_blk := by
        intro hb2c
        have hdc : ringDist cfg (ringNext cfg r.cur_blk) b2 = 1 := by
          have hd := ringDist_prev cfg hlen hnbin
          rw [hpv] at hd
          rw [hb2c]
          exact hd
        rw [hdc] at hdist'
        have h0 : ringDist cfg (ringNext cfg r.cur_blk) b1 = 0 := by omega
        exact h1ne' (ringDist_zero cfg hnbin h1in h0)
      by_cases hbc : b1 = r.cur_blk
      · subst hbc
        obtain ⟨hmeq, hbeq⟩ := sealedRun_unique hr1 hcurrun hm1 (le_refl _)
          hp1 hppb0
        have hr2s : sealedRun cfg s b2 m2 base2 :=
          sealedRun_congr (fun q hq =>
            ((hs2other b2 q h2ne').trans
              (seal_pg_ne s _ _ _ _ _ (fun hc => hd2 hc.1))).symm) hm2 hr2
        obtain ⟨m, base, hm, hrun, hbd⟩ := hW.rest b2 h2in hd2
        have hm0 : 0 < m := by
          by_contra hmz
          have hz : m = 0 := by omega
          subst hz
          have ha := hrun.2 0 (le_refl 0) hppb0
          have hb := hr2s.1 0 hp2
          rw [ha] at hb
          cases hb
        obtain ⟨hmeq2, hbeq2⟩ := sealedRun_unique hr2s hrun hm2 hm hp2 hm0
        obtain ⟨hx, hy⟩ := hbd hm0
        omega
      · have hr1s : sealedRun cfg s b1 m1 base1 :=
          sealedRun_congr (fun q hq =>
            ((hs2other b1 q h1ne').trans
              (seal_pg_ne s _ _ _ _ _ (fun hc => hbc hc.1))).symm) hm1 hr1
        have hr2s : sealedRun cfg s b2 m2 base2 :=
          sealedRun_congr (fun q hq =>
            ((hs2other b2 q h2ne').trans
              (seal_pg_ne s _ _ _ _ _ (fun hc => hd2 hc.1))).symm) hm2 hr2
        have hdr1 := ringDist_next cfg hW.inr h1in h1ne'
        have hdr2 := ringDist_next cfg hW.inr h2in h2ne'
        rw [hdr1, hdr2] at hdist'
        exact hW.chain b1 b2 m1 base1 m2 base2 h1in h2in hbc hd2 hr1s hm1 hp1
          hr2s hm2 hp2 (by omega)
    · intro _ _
      refine ⟨?_, ?_, ?_, ?_⟩
      · show ringPrev cfg (ringNext cfg r.cur_blk) ≠ ringNext cfg r.cur_blk
        rw [hpv]
        exact Ne.symm hnbne
      · show inRing cfg (ringPrev cfg (ringNext cfg r.cur_blk))
        rw [hpv]
        exact hW.inr
      · show 0 < r.cur_id + 1 - cfg.ppb
        omega
      · show sealedRun cfg
          (eraseBlockOk (writeSpareOk (writeDataOk s r.cur_blk r.cur_page)
            r.cur_blk r.cur_page r.cur_id) (ringNext cfg r.cur_blk))
          (ringPrev cfg (ringNext cfg r.cur_blk)) cfg.ppb
          (r.cur_id + 1 - cfg.ppb)
        rw [hpv]
        exact hcurrun
  · rw [if_neg hroll] at hok
    simp only [Except.ok.injEq, Prod.mk.injEq] at hok
    obtain ⟨h1, h2, h3⟩ := hok
    subst h1
    subst h2
    subst h3
    refine ⟨hW.mounted, hs1good, hW.inr, ?_, ?_, ?_, ?_, ?_, ?_⟩
    · show r.cur_page + 1 < cfg.ppb
      omega
    · show r.cur_page + 1 < r.cur_id + 1
      omega
    · show sealedRun cfg (writeSpareOk (writeDataOk s r.cur_blk r.cur_page)
        r.cur_blk r.cur_page r.cur_id) r.cur_blk (r.cur_page + 1)
        (r.cur_id + 1 - (r.cur_page + 1))
      constructor
      · intro p hp
        by_cases hpc : p = r.cur_page
        · subst hpc
          rw [hs1self]
          congr 1
          omega
        · rw [seal_pg_ne s _ _ _ _ _ (fun hc => hpc hc.2)]
          rw [hW.cur.1 p (by omega)]
          congr 1
          omega
      · intro p hge hlt
        rw [seal_pg_ne s _ _ _ _ _ (fun hc => by omega)]
        exact hW.cur.2 p (by omega) hlt
    · intro b hb hbne
      have hbne' : b ≠ r.cur_blk := hbne
      obtain ⟨m, base, hm, hrun, hbd⟩ := hW.rest b hb hbne'
      refine ⟨m, base, hm, ?_, ?_⟩
      · exact sealedRun_congr (fun q hq =>
          seal_pg_ne s _ _ _ _ _ (fun hc => hbne' hc.1)) hm hrun
      · intro h0
        obtain ⟨hx, hy⟩ := hbd h0
        refine ⟨hx, ?_⟩
        show base + m ≤ r.cur_id + 1 - (r.cur_page + 1)
        omega
    · intro b1 b2 m1 base1 m2 base2 h1in h2in h1ne h2ne hr1 hm1 hp1 hr2 hm2 hp2
        hdist
      have h1ne' : b1 ≠ r.cur_blk := h1ne
      have h2ne' : b2 ≠ r.cur_blk := h2ne
      have hr1s : sealedRun cfg s b1 m1 base1 :=
        sealedRun_congr (fun q hq =>
          (seal_pg_ne s _ _ _ _ _ (fun hc => h1ne' hc.1)).symm) hm1 hr1
      have hr2s : sealedRun cfg s b2 m2 base2 :=
        sealedRun_congr (fun q hq =>
          (seal_pg_ne s _ _ _ _ _ (fun hc => h2ne' hc.1)).symm) hm2 hr2
      exact hW.chain b1 b2 m1 base1 m2 base2 h1in h2in h1ne' h2ne' hr1s hm1 hp1
        hr2s hm2 hp2 hdist
    · intro h0 _
      exact absurd h0 (Nat.succ_ne_zero r.cur_page)

theorem runWrites_winv (cfg : NandRingConfig) (hlen : 2 ≤ cfg.len) :
    ∀ (n : Nat) {r : NandRing} {s : NandState} {r' : NandRing} {s' : NandState},
    WInv cfg r s → runWrites cfg n r s = Except.ok (r', s') → WInv cfg r' s' := by
  intro n
  induction n with
  | zero =>
    intro r s r' s' hW hok
    simp only [runWrites, Except.ok.injEq, Prod.mk.injEq] at hok
    obtain ⟨h1, h2⟩ := hok
    subst h1
    subst h2
    exact hW
  | succ n ih =>
    intro r s r' s' hW hok
    unfold runWrites at hok
    cases hwp : nandRingWritePage cfg r s [] with
    | error e =>
      rw [hwp] at hok
      cases hok
    | ok t =>
      obtain ⟨r1, s1, o1⟩ := t
      rw [hwp] at hok
      dsimp only at hok
      exact ih (winv_step cfg hlen hW hwp) hok

theorem winv_maxDurable (cfg : NandRingConfig) {r : NandRing} {s : NandState}
    (hW : WInv cfg r s) : maxDurableId cfg s = r.cur_id - 1 := by
  have hplt := hW.plt
  have hidgt := hW.idgt
  obtain ⟨hin1, hin2⟩ := hW.inr
  have hub : maxDurableId cfg s ≤ r.cur_id - 1 := by
    apply maxDurableId_le
    intro j p hj hp
    by_cases hbc : cfg.start_blk + j = r.cur_blk
    · rw [hbc]
      by_cases hpc : p < r.cur_page
      · rw [read_page_id_sealed (hW.cur.1 p hpc)]
        omega
      · rw [read_page_id_erased (hW.cur.2 p (by omega) hp)]
        omega
    · obtain ⟨m, base, hm, hrun, hbd⟩ := hW.rest (cfg.start_blk + j)
        ⟨Nat.le_add_right _ _, by omega⟩ hbc
      by_cases hpm : p < m
      · rw [read_page_id_sealed (hrun.1 p hpm)]
        obtain ⟨hx, hy⟩ := hbd (by omega)
        omega
      · rw [read_page_id_erased (hrun.2 p (by omega) hp)]
        omega
  have hlb : r.cur_id - 1 ≤ maxDurableId cfg s := by
    by_cases hcp : 0 < r.cur_page
    · have hbe : cfg.start_blk + (r.cur_blk - cfg.start_blk) = r.cur_blk := by
        omega
      have h2 := @le_maxDurableId cfg s (r.cur_blk - cfg.start_blk)
        (r.cur_page - 1) (by omega) (by omega)
      rw [hbe] at h2
      rw [read_page_id_sealed (hW.cur.1 (r.cur_page - 1) (by omega))] at h2
      omega
    · by_cases hone : r.cur_id = 1
      · omega
      · obtain ⟨hpne, hpin, hpos, hprun⟩ := hW.prev (by omega) hone
        obtain ⟨hq1, hq2⟩ := hpin
        have hbe : cfg.start_blk + (ringPrev cfg r.cur_blk - cfg.start_blk) =
            ringPrev cfg r.cur_blk := by omega
        have h2 := @le_maxDurableId cfg s
          (ringPrev cfg r.cur_blk - cfg.start_blk) (cfg.ppb - 1)
          (by omega) (by omega)
        rw [hbe] at h2
        rw [read_page_id_sealed (hprun.1 (cfg.ppb - 1) (by omega))] at h2
        omega
  omega

theorem winv_mount (cfg : NandRingConfig) (r : NandRing) (s : NandState)
    (hW : WInv cfg r s) (hlen : MIN_RING_SIZE ≤ cfg.len) :
    ∃ r3 s3, nandRingMount cfg { r with state := RingSt.IDLE } s [] =
      Except.ok (true, r3, s3, []) ∧
    r3.cur_id = r.cur_id ∧ r3.cur_page = 0 ∧ blockErased cfg s3 r3.cur_blk := by
  have hg := hW.allGood
  have hplt := hW.plt
  have hidgt := hW.idgt
  obtain ⟨hin1, hin2⟩ := hW.inr
  have hlen0 : 0 < cfg.len := by
    unfold MIN_RING_SIZE at hlen
    omega
  have hlen2 : 2 ≤ cfg.len := by
    unfold MIN_RING_SIZE at hlen
    omega
  have hppb0 : 0 < cfg.ppb := by omega
  have hmemL : ∀ b, cfg.start_blk ≤ b → b < cfg.start_blk + cfg.len →
      b ∈ (List.range cfg.len).map (fun i => cfg.start_blk + i) := by
    intro b h1 h2
    rw [List.mem_map]
    exact ⟨b - cfg.start_blk, List.mem_range.mpr (by omega), by omega⟩
  have hmemR : ∀ y, y ∈ (List.range cfg.len).map (fun i => cfg.start_blk + i) →
      cfg.start_blk ≤ y ∧ y < cfg.start_blk + cfg.len := by
    intro y hy
    rw [List.mem_map] at hy
    obtain ⟨i, hi, he⟩ := hy
    rw [List.mem_range] at hi
    omega
  by_cases hcp : 0 < r.cur_page
  · have hlwb : last_written_block cfg s = some r.cur_blk := by
      rw [last_written_block_allgood cfg s hg hlen0]
      rw [foldl_scanStep_sel (fun x => read_page_id s x 0)
        (r.cur_id - r.cur_page) r.cur_blk _ _
        (hmemL r.cur_blk hin1 hin2) ?gx ?ub ?uniq ?acc]
      case gx =>
        dsimp only
        rw [read_page_id_sealed (hW.cur.1 0 hcp)]
        omega
      case ub =>
        intro y hy
        dsimp only
        obtain ⟨hy1, hy2⟩ := hmemR y hy
        by_cases hyc : y = r.cur_blk
        · subst hyc
          rw [read_page_id_sealed (hW.cur.1 0 hcp)]
          omega
        · obtain ⟨m, base, hm, hrun, hbd⟩ := hW.rest y ⟨hy1, hy2⟩ hyc
          by_cases hm0 : 0 < m
          · rw [read_page_id_sealed (hrun.1 0 hm0)]
            obtain ⟨hx, hyy⟩ := hbd hm0
            omega
          · rw [read_page_id_erased (hrun.2 0 (by omega) hppb0)]
            omega
      case uniq =>
        intro y hy hgy
        dsimp only at hgy
        obtain ⟨hy1, hy2⟩ := hmemR y hy
        by_contra hyc
        obtain ⟨m, base, hm, hrun, hbd⟩ := hW.rest y ⟨hy1, hy2⟩ hyc
        by_cases hm0 : 0 < m
        · rw [read_page_id_sealed (hrun.1 0 hm0)] at hgy
          obtain ⟨hx, hyy⟩ := hbd hm0
          omega
        · rw [read_page_id_erased (hrun.2 0 (by omega) hppb0)] at hgy
          omega
      case acc =>
        show PAGE_ID_FIRST ≤ r.cur_id - r.cur_page
        unfold PAGE_ID_FIRST
        omega
    have hlwp : last_written_page cfg s r.cur_blk = Except.ok (r.cur_page - 1) :=
      last_written_page_char cfg s hcp (le_of_lt hplt) (by omega) hW.cur
    have hread : read_page_id s r.cur_blk (r.cur_page - 1) = r.cur_id - 1 := by
      rw [read_page_id_sealed (hW.cur.1 (r.cur_page - 1) (by omega))]
      omega
    have hclose : ∃ sc, close_prev_session cfg s r.cur_blk (r.cur_page - 1) [] =
        Except.ok (ringNext cfg r.cur_blk, sc, []) ∧
        (∀ q, sc.pg (ringNext cfg r.cur_blk) q = PageState.erased) := by
      unfold close_prev_session
      rw [if_neg (by omega)]
      dsimp only
      rw [close_fill_nil_snd]
      have hng : next_good cfg (close_fill r.cur_blk s [] (r.cur_page - 1)
          (cfg.ppb - (r.cur_page - 1))).1 r.cur_blk =
          some (ringNext cfg r.cur_blk) := by
        rw [next_good_bad_congr cfg
          (close_fill_nil_bad r.cur_blk _ s _) r.cur_blk]
        exact next_good_allgood cfg hg hlen0 r.cur_blk
      refine ⟨_, erase_next_nil cfg hng, ?_⟩
      intro q
      rw [eraseBlockOk_pg, if_pos rfl]
    obtain ⟨sc, hcloseq, hscer⟩ := hclose
    refine ⟨{ r with
        state := RingSt.MOUNTED
        cur_blk := ringNext cfg r.cur_blk
        cur_page := 0
        cur_id := read_page_id s r.cur_blk (r.cur_page - 1) + 1 },
      sc, ?_, ?_, ?_, ?_⟩
    · unfold nandRingMount
      rw [if_neg (by simp)]
      rw [if_neg (by
        rw [total_good_allgood cfg hg]
        unfold MIN_RING_SIZE at hlen ⊢
        omega)]
      rw [hlwb]
      dsimp only
      rw [hlwp]
      dsimp only
      rw [hcloseq]
    · dsimp only
      rw [hread]
      omega
    · rfl
    · intro p hp
      exact hscer p
  · by_cases hone : r.cur_id = 1
    · have hallz : ∀ y, cfg.start_blk ≤ y → y < cfg.start_blk + cfg.len →
          read_page_id s y 0 = 0 := by
        intro y h1 h2
        by_cases hyc : y = r.cur_blk
        · subst hyc
          rw [read_page_id_erased (hW.cur.2 0 (by omega) hppb0)]
        · obtain ⟨m, base, hm, hrun, hbd⟩ := hW.rest y ⟨h1, h2⟩ hyc
          have hm0 : m = 0 := by
            by_contra hmz
            obtain ⟨hx, hy⟩ := hbd (by omega)
            omega
          rw [read_page_id_erased (hrun.2 0 (by omega) hppb0)]
      have hlwb : last_written_block cfg s = none := by
        rw [last_written_block_allgood cfg s hg hlen0]
        rw [foldl_scanStep_low _ _ _ (by
          intro y hy
          obtain ⟨hy1, hy2⟩ := hmemR y hy
          show read_page_id s y 0 < ((none, PAGE_ID_FIRST) : Option Nat × Nat).2
          rw [hallz y hy1 hy2]
          decide)]
      have hmk : mkfs cfg s [] = Except.ok (ringNext cfg cfg.start_blk,
          eraseBlockOk s (ringNext cfg cfg.start_blk), []) := by
        unfold mkfs
        rw [first_good_allgood cfg hg hlen0]
        dsimp only
        exact erase_next_nil cfg (next_good_allgood cfg hg hlen0 cfg.start_blk)
      refine ⟨{ r with
          state := RingSt.MOUNTED
          cur_blk := ringNext cfg cfg.start_blk
          cur_page := 0
          cur_id := PAGE_ID_FIRST },
        eraseBlockOk s (ringNext cfg cfg.start_blk), ?_, ?_, ?_, ?_⟩
      · unfold nandRingMount
        rw [if_neg (by simp)]
        rw [if_neg (by
          rw [total_good_allgood cfg hg]
          unfold MIN_RING_SIZE at hlen ⊢
          omega)]
        rw [hlwb]
        dsimp only
        rw [hmk]
      · show PAGE_ID_FIRST = r.cur_id
        unfold PAGE_ID_FIRST
        omega
      · rfl
      · intro p hp
        rw [eraseBlockOk_pg, if_pos rfl]
    · obtain ⟨hpne, hpin, hpos, hprun⟩ := hW.prev (by omega) hone
      obtain ⟨hq1, hq2⟩ := id hpin
      have hcur_er : ∀ p, p < cfg.ppb → s.pg r.cur_blk p = PageState.erased :=
        fun p hp => hW.cur.2 p (by omega) hp
      have hdprev : ringDist cfg r.cur_blk (ringPrev cfg r.cur_blk) = 1 :=
        ringDist_prev cfg hlen2 hW.inr
      have hfar : ∀ y, cfg.start_blk ≤ y → y < cfg.start_blk + cfg.len →
          y ≠ r.cur_blk → y ≠ ringPrev cfg r.cur_blk →
          ringDist cfg r.cur_blk (ringPrev cfg r.cur_blk) <
            ringDist cfg r.cur_blk y := by
        intro y hy1 hy2 hyc hyp
        rw [hdprev]
        rcases Nat.lt_or_ge 1 (ringDist cfg r.cur_blk y) with h | h
        · exact h
        · exfalso
          have h01 : ringDist cfg r.cur_blk y = 0 ∨
              ringDist cfg r.cur_blk y = 1 := by omega
          cases h01 with
          | inl h0 => exact hyc (ringDist_zero cfg hW.inr ⟨hy1, hy2⟩ h0)
          | inr h1 => exact hyp (ringDist_one cfg hW.inr ⟨hy1, hy2⟩ h1)
      have hlwb : last_written_block cfg s = some (ringPrev cfg r.cur_blk) := by
        rw [last_written_block_allgood cfg s hg hlen0]
        rw [foldl_scanStep_sel (fun x => read_page_id s x 0)
          (r.cur_id - cfg.ppb) (ringPrev cfg r.cur_blk) _ _
          (hmemL _ hq1 hq2) ?gx ?ub ?uniq ?acc]
        case gx =>
          dsimp only
          rw [read_page_id_sealed (hprun.1 0 hppb0)]
          omega
        case ub =>
          intro y hy
          dsimp only
          obtain ⟨hy1, hy2⟩ := hmemR y hy
          by_cases hyp : y = ringPrev cfg r.cur_blk
          · subst hyp
            rw [read_page_id_sealed (hprun.1 0 hppb0)]
            omega
          · by_cases hyc : y = r.cur_blk
            · subst hyc
              rw [read_page_id_erased (hcur_er 0 hppb0)]
              omega
            · obtain ⟨m, base, hm, hrun, hbd⟩ := hW.rest y ⟨hy1, hy2⟩ hyc
              by_cases hm0 : 0 < m
              · rw [read_page_id_sealed (hrun.1 0 hm0)]
                have hch := hW.chain (ringPrev cfg r.cur_blk) y cfg.ppb
                  (r.cur_id - cfg.ppb) m base hpin ⟨hy1, hy2⟩ hpne hyc hprun
                  (le_refl _) hppb0 hrun hm hm0 (hfar y hy1 hy2 hyc hyp)
                omega
              · rw [read_page_id_erased (hrun.2 0 (by omega) hppb0)]
                omega
        case uniq =>
          intro y hy hgy
          dsimp only at hgy
          obtain ⟨hy1, hy2⟩ := hmemR y hy
          by_contra hyp
          by_cases hyc : y = r.cur_blk
          · rw [hyc, read_page_id_erased (hcur_er 0 hppb0)] at hgy
            omega
          · obtain ⟨m, base, hm, hrun, hbd⟩ := hW.rest y ⟨hy1, hy2⟩ hyc
            by_cases hm0 : 0 < m
            · rw [read_page_id_sealed (hrun.1 0 hm0)] at hgy
              have hch := hW.chain (ringPrev cfg r.cur_blk) y cfg.ppb
                (r.cur_id - cfg.ppb) m base hpin ⟨hy1, hy2⟩ hpne hyc hprun
                (le_refl _) hppb0 hrun hm hm0 (hfar y hy1 hy2 hyc hyp)
              omega
            · rw [read_page_id_erased (hrun.2 0 (by omega) hppb0)] at hgy
              omega
        case acc =>
          show PAGE_ID_FIRST ≤ r.cur_id - cfg.ppb
          unfold PAGE_ID_FIRST
          omega
      have hlwp : last_written_page cfg s (ringPrev cfg r.cur_blk) =
          Except.ok (cfg.ppb - 1) :=
        last_written_page_char cfg s hppb0 (le_refl _) hpos hprun
      have hread : read_page_id s (ringPrev cfg r.cur_blk) (cfg.ppb - 1) =
          r.cur_id - 1 := by
        rw [read_page_id_sealed (hprun.1 (cfg.ppb - 1) (by omega))]
        omega
      have hcloseq : close_prev_session cfg s (ringPrev cfg r.cur_blk)
          (cfg.ppb - 1) [] =
          Except.ok (ringNext cfg (ringPrev cfg r.cur_blk),
            eraseBlockOk s (ringNext cfg (ringPrev cfg r.cur_blk)), []) := by
        unfold close_prev_session
        rw [if_pos rfl]
        exact erase_next_nil cfg (next_good_allgood cfg hg hlen0 _)
      refine ⟨{ r with
          state := RingSt.MOUNTED
          cur_blk := ringNext cfg (ringPrev cfg r.cur_blk)
          cur_page := 0
          cur_id := read_page_id s (ringPrev cfg r.cur_blk) (cfg.ppb - 1) + 1 },
        eraseBlockOk s (ringNext cfg (ringPrev cfg r.cur_blk)), ?_, ?_, ?_, ?_⟩
      · unfold nandRingMount
        rw [if_neg (by simp)]
        rw [if_neg (by
          rw [total_good_allgood cfg hg]
          unfold MIN_RING_SIZE at hlen ⊢
          omega)]
        rw [hlwb]
        dsimp only
        rw [hlwp]
        dsimp only
        rw [hcloseq]
      · dsimp only
        rw [hread]
        omega
      · rfl
      · intro p hp
        rw [eraseBlockOk_pg, if_pos rfl]

/-- C1: recovery convergence.  For any NAND contents reached by mounting a
fresh ring and appending any number of pages with no injected failures, a
subsequent `nandRingMount` after a power loss returns OSAL_SUCCESS, sets
`cur_id` to the maximum id stored on any durable (CRC-valid) page plus one,
resumes at page 0, and the block it installs as `cur_blk` is fully erased. -/
theorem c1_recovery_convergence (cfg : NandRingConfig) (r r1 r2 : NandRing)
    (s1 s2 : NandState) (n : Nat)
    (hlen : MIN_RING_SIZE ≤ cfg.len) (hppb : 0 < cfg.ppb)
    (hidle : r.state = RingSt.IDLE)
    (hm1 : nandRingMount cfg r freshNand [] = Except.ok (true, r1, s1, []))
    (hw : runWrites cfg n r1 s1 = Except.ok (r2, s2)) :
    ∃ r3 s3, nandRingMount cfg { r2 with state := RingSt.IDLE } s2 [] =
      Except.ok (true, r3, s3, []) ∧
    r3.cur_id = maxDurableId cfg s2 + 1 ∧ r3.cur_page = 0 ∧
    blockErased cfg s3 r3.cur_blk := by
  have hlen2 : 2 ≤ cfg.len := by
    unfold MIN_RING_SIZE at hlen
    omega
  rw [mount_fresh_char cfg r hlen hidle] at hm1
  injection hm1 with hpair
  injection hpair with hflag hrest
  injection hrest with hr1 hrest2
  injection hrest2 with hs1 htl
  subst hr1
  subst hs1
  have hW1 := winv_fresh cfg r hlen hppb
  have hW2 := runWrites_winv cfg hlen2 n hW1 hw
  obtain ⟨r3, s3, hmeq, hid, hpg, hbe⟩ := winv_mount cfg r2 s2 hW2 hlen
  refine ⟨r3, s3, hmeq, ?_, hpg, hbe⟩
  rw [winv_maxDurable cfg hW2]
  have hig := hW2.idgt
  omega

/-- C1 witness: the concrete 64-block, 2-pages-per-block ring mounted fresh,
appended three times (with a block rollover in between), and remounted. -/
theorem c1_recovery_convergence_w :
    ∃ r3 s3, nandRingMount cfg0 { c1r2 with state := RingSt.IDLE } c1s2 [] =
      Except.ok (true, r3, s3, []) ∧
    r3.cur_id = maxDurableId cfg0 c1s2 + 1 ∧ r3.cur_page = 0 ∧
    blockErased cfg0 s3 r3.cur_blk :=
  c1_recovery_convergence cfg0 r0 c1r1 c1r2 c1s1 c1s2 3 (by decide) (by decide)
    rfl rfl rfl
